import Mathlib

/-!
Verification of the networking core of the `fis/bracket` IRC bot framework.

This development shallowly embeds the parts of the C++ source that the
checked properties are about:

* `base/buffer.h` and `base/buffer.cc`: little-endian primitive
  readers/writers and the resizable `ring_buffer` byte queue;
* `irc/message.cc`: `Message::Parse` and `Message::Write`;
* `irc/connection.cc`: the output flood-control path (`Send`, `SendNow`,
  `Flush`) and the connection-loss path (`ConnectionLost`);
* `event/socket.cc`: the outgoing `BasicSocket` connect state machine and
  the `TlsSocket` pending-operation bookkeeping;
* `brpc/brpc.cc` with `proto/util.h`: the RPC framing read loop and
  `RpcCall::Close`;
* `base/timer_impl.h`: `Timer::AddPeriodic`.

Machine integers are modelled as `Nat`/`Int` with explicit reductions
modulo 2^8, 2^16, 2^32 where the C++ code truncates.  Byte arrays are
modelled as `List Nat` of values below 256.  Fallible operations return
`Option`.
-/

namespace Bracket

/-! ## base/buffer.h: little-endian primitive readers and writers

The C++ functions operate on `unsigned char*`; here a buffer is a
`List Nat` of byte values and the pointer argument is the front of the
list.  Signed values are `Int`, unsigned values are `Nat`.
-/

/-- Truncation of a natural to an unsigned 8-bit value (a C++ `unsigned char` store). -/
def toU8 (v : Nat) : Nat := v % 256

/-- Reinterpretation of an unsigned value as a two's-complement signed 8-bit value. -/
def toI8 (v : Nat) : Int :=
  if v % 256 < 128 then ((v % 256 : Nat) : Int) else ((v % 256 : Nat) : Int) - 256

/-- Reinterpretation of an unsigned value as a two's-complement signed 16-bit value. -/
def toI16 (v : Nat) : Int :=
  if v % 65536 < 32768 then ((v % 65536 : Nat) : Int) else ((v % 65536 : Nat) : Int) - 65536

/-- Reinterpretation of an unsigned value as a two's-complement signed 32-bit value. -/
def toI32 (v : Nat) : Int :=
  if v % 4294967296 < 2147483648 then ((v % 4294967296 : Nat) : Int)
  else ((v % 4294967296 : Nat) : Int) - 4294967296

/-- Two's-complement byte pattern of an `Int`, as an unsigned value below 2^bits.
C++ stores of signed integers into `unsigned char` truncate this way. -/
def unsignedOfInt (bits : Nat) (v : Int) : Nat := (v % ((2 : Int) ^ bits)).toNat

/-- Embeds `base::read_u8`: reads one byte. -/
def read_u8 (b : List Nat) : Nat := b.getD 0 0

/-- Embeds `base::read_i8`: reads one byte as a signed 8-bit value. -/
def read_i8 (b : List Nat) : Int := toI8 (b.getD 0 0)

/-- Embeds `base::read_u16` (whose declared C++ return type is `int16_t`):
assembles two bytes little-endian; the value is truncated to `int16_t` on return. -/
def read_u16 (b : List Nat) : Int := toI16 (b.getD 0 0 + 256 * b.getD 1 0)

/-- Embeds `base::read_i16`: assembles two bytes little-endian as a signed 16-bit value. -/
def read_i16 (b : List Nat) : Int := toI16 (b.getD 0 0 + 256 * b.getD 1 0)

/-- Embeds `base::read_u32`: assembles four bytes little-endian. -/
def read_u32 (b : List Nat) : Nat :=
  b.getD 0 0 + 256 * b.getD 1 0 + 65536 * b.getD 2 0 + 16777216 * b.getD 3 0

/-- Embeds `base::read_i32`: assembles four bytes little-endian as a signed 32-bit value. -/
def read_i32 (b : List Nat) : Int :=
  toI32 (b.getD 0 0 + 256 * b.getD 1 0 + 65536 * b.getD 2 0 + 16777216 * b.getD 3 0)

/-- Embeds `base::write_u8`: the single stored byte. -/
def write_u8_bytes (v : Nat) : List Nat := [toU8 v]

/-- Embeds `base::write_i8`: the single stored byte (two's complement). -/
def write_i8_bytes (v : Int) : List Nat := [toU8 (unsignedOfInt 8 v)]

/-- Embeds `base::write_u16`: bytes `v` and `v >> 8`, little-endian. -/
def write_u16_bytes (v : Nat) : List Nat := [toU8 v, toU8 (v / 256)]

/-- Embeds `base::write_i16`: little-endian bytes of the two's-complement pattern. -/
def write_i16_bytes (v : Int) : List Nat :=
  let u := unsignedOfInt 16 v
  [toU8 u, toU8 (u / 256)]

/-- Embeds `base::write_u32`: bytes `v`, `v >> 8`, `v >> 16`, `v >> 24`, little-endian. -/
def write_u32_bytes (v : Nat) : List Nat :=
  [toU8 v, toU8 (v / 256), toU8 (v / 65536), toU8 (v / 16777216)]

/-- Embeds `base::write_i32`: little-endian bytes of the two's-complement pattern. -/
def write_i32_bytes (v : Int) : List Nat :=
  let u := unsignedOfInt 32 v
  [toU8 u, toU8 (u / 256), toU8 (u / 65536), toU8 (u / 16777216)]

/-! ## base/buffer.h, base/buffer.cc: ring_buffer

The backing array `data_` is a `List Nat`; the separate `size_` member of
the C++ class always equals the allocation size, so here it is
`data.length`.  `used_` and `first_byte_` are as in the source.
Wrap-around uses the bitmask `capacity - 1` like the source; the
capacity is kept a power of two.
-/

/-- Embeds the source's wrap-around index computation `pos & (size_ - 1)`. -/
def ringIdx (size pos : Nat) : Nat := pos &&& (size - 1)

/-- Embeds `base::ring_buffer` (fields `data_`, `used_`, `first_byte_`;
`size_` is `data.length`). -/
structure ring_buffer where
  data : List Nat
  used : Nat
  first_byte : Nat
deriving Repr, DecidableEq

namespace ring_buffer

/-- Embeds the `ring_buffer(initial_size)` constructor: a fresh zeroed allocation. -/
def mk0 (initial_size : Nat) : ring_buffer := ⟨List.replicate initial_size 0, 0, 0⟩

/-- One doubling round of the growth loop of `ring_buffer::push`:
`while (new_size && used + push > new_size) new_size <<= 1`.
The structural fuel only bounds the iteration count; `need` rounds always
suffice because the size doubles each round. -/
def growSizeGo (need : Nat) : Nat → Nat → Nat
  | 0, ns => ns
  | fuel + 1, ns => if need ≤ ns then ns else if ns = 0 then 0 else growSizeGo need fuel (2 * ns)

/-- Embeds the growth loop of `ring_buffer::push`:
`new_size = size << 1; while (new_size && used + push > new_size) new_size <<= 1`.
Called with the already-doubled starting size. -/
def growSize (new_size need : Nat) : Nat := growSizeGo need need new_size

/-- Embeds `ring_buffer::resize`: copies the live bytes (one or two
`memcpy`s depending on wrap) to offset zero of a fresh allocation of
`new_size` bytes; the bytes past `used_` are uninitialised in C++ and
zero here. -/
def resize (rb : ring_buffer) (new_size : Nat) : ring_buffer :=
  let content :=
    if rb.first_byte + rb.used ≤ rb.data.length then
      (rb.data.drop rb.first_byte).take rb.used
    else
      rb.data.drop rb.first_byte ++ rb.data.take (rb.used - (rb.data.length - rb.first_byte))
  ⟨content ++ List.replicate (new_size - rb.used) 0, rb.used, 0⟩

/-- Embeds `ring_buffer::push`: grows the allocation if needed and
reserves `push_size` bytes.  The C++ function returns one or two views
over the reserved range; here the returned `Nat` is the array offset of
the start of that range (the range wraps with `ringIdx`). -/
def push (rb : ring_buffer) (push_size : Nat) : ring_buffer × Nat :=
  let rb' :=
    if rb.used + push_size > rb.data.length then
      rb.resize (growSize (2 * rb.data.length) (rb.used + push_size))
    else rb
  let e := ringIdx rb'.data.length (rb'.first_byte + rb'.used)
  (⟨rb'.data, rb'.used + push_size, rb'.first_byte⟩, e)

end ring_buffer

/-- Stores the bytes of `src` into `d` starting at array offset `pos`,
wrapping with the `ringIdx` mask.  This is the write through the view(s)
returned by `push`/`front` (one `memcpy` per view in the source). -/
def storeAt (d : List Nat) (pos : Nat) : List Nat → List Nat
  | [] => d
  | b :: rest => storeAt (d.set (ringIdx d.length pos) b) (pos + 1) rest

namespace ring_buffer

/-- Embeds `ring_buffer::write`: the fast path stores at the end when the
bytes fit without wrap or resize; otherwise it goes through `push` and
stores through the returned views. -/
def write (rb : ring_buffer) (src : List Nat) : ring_buffer :=
  let e := ringIdx rb.data.length (rb.first_byte + rb.used)
  if rb.used + src.length ≤ rb.data.length ∧ e + src.length ≤ rb.data.length then
    ⟨storeAt rb.data e src, rb.used + src.length, rb.first_byte⟩
  else
    let p := rb.push src.length
    ⟨storeAt p.1.data p.2 src, p.1.used, p.1.first_byte⟩

/-- Embeds `ring_buffer::write_i8`. -/
def write_i8 (rb : ring_buffer) (v : Int) : ring_buffer := rb.write (write_i8_bytes v)

/-- Embeds `ring_buffer::write_u8`. -/
def write_u8 (rb : ring_buffer) (v : Nat) : ring_buffer := rb.write (write_u8_bytes v)

/-- Embeds `ring_buffer::write_i16`. -/
def write_i16 (rb : ring_buffer) (v : Int) : ring_buffer := rb.write (write_i16_bytes v)

/-- Embeds `ring_buffer::write_u16`. -/
def write_u16 (rb : ring_buffer) (v : Nat) : ring_buffer := rb.write (write_u16_bytes v)

/-- Embeds `ring_buffer::write_i32`. -/
def write_i32 (rb : ring_buffer) (v : Int) : ring_buffer := rb.write (write_i32_bytes v)

/-- Embeds `ring_buffer::write_u32`. -/
def write_u32 (rb : ring_buffer) (v : Nat) : ring_buffer := rb.write (write_u32_bytes v)

/-- Embeds `ring_buffer::pop`: drops the first `n` bytes; an emptied
buffer resets `first_byte_` to zero. -/
def pop (rb : ring_buffer) (n : Nat) : ring_buffer :=
  if rb.used - n = 0 then ⟨rb.data, 0, 0⟩
  else ⟨rb.data, rb.used - n, ringIdx rb.data.length (rb.first_byte + n)⟩

/-- Embeds `ring_buffer::read`: copies the first `n` bytes out (one or
two `memcpy`s depending on wrap) and pops them. -/
def read (rb : ring_buffer) (n : Nat) : List Nat × ring_buffer :=
  let dst :=
    if rb.first_byte + n ≤ rb.data.length then
      (rb.data.drop rb.first_byte).take n
    else
      rb.data.drop rb.first_byte ++ rb.data.take (n - (rb.data.length - rb.first_byte))
  (dst, rb.pop n)

/-- Embeds `ring_buffer::read_i8`. -/
def read_i8 (rb : ring_buffer) : Int × ring_buffer :=
  let r := rb.read 1
  (Bracket.read_i8 r.1, r.2)

/-- Embeds `ring_buffer::read_u8`. -/
def read_u8 (rb : ring_buffer) : Nat × ring_buffer :=
  let r := rb.read 1
  (Bracket.read_u8 r.1, r.2)

/-- Embeds `ring_buffer::read_i16`. -/
def read_i16 (rb : ring_buffer) : Int × ring_buffer :=
  let r := rb.read 2
  (Bracket.read_i16 r.1, r.2)

/-- Embeds `ring_buffer::read_u16`: the `int16_t` result of
`base::read_u16` is converted back to the `uint16_t` return type. -/
def read_u16 (rb : ring_buffer) : Nat × ring_buffer :=
  let r := rb.read 2
  (unsignedOfInt 16 (Bracket.read_u16 r.1), r.2)

/-- Embeds `ring_buffer::read_i32`. -/
def read_i32 (rb : ring_buffer) : Int × ring_buffer :=
  let r := rb.read 4
  (Bracket.read_i32 r.1, r.2)

/-- Embeds `ring_buffer::read_u32`. -/
def read_u32 (rb : ring_buffer) : Nat × ring_buffer :=
  let r := rb.read 4
  (Bracket.read_u32 r.1, r.2)

/-- Embeds `ring_buffer::clear`. -/
def clear (rb : ring_buffer) : ring_buffer := ⟨rb.data, 0, 0⟩

/-- The queue contents, front first: the abstraction a FIFO byte queue
satisfies.  Byte `i` of the queue lives at array offset
`ringIdx (first_byte + i)`, mirroring the indexed access operator. -/
def toList (rb : ring_buffer) : List Nat :=
  (List.range rb.used).map fun i => rb.data.getD (ringIdx rb.data.length (rb.first_byte + i)) 0

/-- The class invariant: power-of-two capacity at least one, `used_` at
most the capacity, `first_byte_` inside the array. -/
def Inv (rb : ring_buffer) : Prop :=
  (∃ k, rb.data.length = 2 ^ k) ∧ rb.used ≤ rb.data.length ∧ rb.first_byte < rb.data.length

end ring_buffer

/-! ### Ring buffer lemmas -/

lemma ringIdx_eq_mod (size pos : Nat) (h : ∃ k, size = 2 ^ k) :
    ringIdx size pos = pos % size := by
  obtain ⟨k, rfl⟩ := h
  exact Nat.and_pow_two_sub_one_eq_mod pos k

lemma getD_eq_getElem (d : List Nat) (i : Nat) (h : i < d.length) :
    d.getD i 0 = d[i] := by
  simp [List.getD_eq_getElem?_getD, List.getElem?_eq_getElem h]

lemma range_map_getD (l : List Nat) :
    (List.range l.length).map (fun i => l.getD i 0) = l := by
  apply List.ext_getElem
  · simp
  · intro i h1 h2
    simp only [List.getElem_map, List.getElem_range]
    exact getD_eq_getElem _ _ h2

/-- The one-or-two-`memcpy` window extraction used by `resize` and `read`
equals the modular-index description of the first `n` queued bytes. -/
lemma window_eq (d : List Nat) (fb n : Nat) (h1 : fb < d.length) (h2 : n ≤ d.length) :
    (if fb + n ≤ d.length then (d.drop fb).take n
     else d.drop fb ++ d.take (n - (d.length - fb))) =
    (List.range n).map (fun i => d.getD ((fb + i) % d.length) 0) := by
  by_cases hc : fb + n ≤ d.length
  · rw [if_pos hc]
    apply List.ext_getElem
    · simp; omega
    · intro i hi1 hi2
      have hin : i < n := by simpa using hi2
      have hfbi : fb + i < d.length := by omega
      simp only [List.getElem_take, List.getElem_drop, List.getElem_map, List.getElem_range]
      rw [Nat.mod_eq_of_lt hfbi, getD_eq_getElem _ _ hfbi]
  · rw [if_neg hc]
    apply List.ext_getElem
    · simp; omega
    · intro i hi1 hi2
      have hin : i < n := by simpa using hi2
      have hdrop : (d.drop fb).length = d.length - fb := by simp
      simp only [List.getElem_map, List.getElem_range]
      by_cases hsplit : i < d.length - fb
      · rw [List.getElem_append_left (by omega)]
        have hfbi : fb + i < d.length := by omega
        rw [List.getElem_drop, Nat.mod_eq_of_lt hfbi, getD_eq_getElem _ _ hfbi]
      · rw [List.getElem_append_right (by omega)]
        have hmod : (fb + i) % d.length = fb + i - d.length := by
          rw [Nat.mod_eq_sub_mod (by omega)]
          exact Nat.mod_eq_of_lt (by omega)
        rw [List.getElem_take, hmod, getD_eq_getElem _ _ (by omega)]
        congr 1
        omega

lemma storeAt_length (src : List Nat) (d : List Nat) (pos : Nat) :
    (storeAt d pos src).length = d.length := by
  induction src generalizing d pos with
  | nil => rfl
  | cons b rest ih => simp [storeAt, ih]

/-- Positions with distinct in-window offsets store at distinct array indices. -/
lemma add_mod_inj (L pos x y : Nat) (hx : x < L) (hy : y < L) (hne : x ≠ y) :
    (pos + x) % L ≠ (pos + y) % L := by
  intro h
  have h2 : x % L = y % L := Nat.ModEq.add_left_cancel' pos h
  rw [Nat.mod_eq_of_lt hx, Nat.mod_eq_of_lt hy] at h2
  exact hne h2

lemma getD_storeAt_miss (src : List Nat) (d : List Nat) (pos q : Nat)
    (h : ∀ i, i < src.length → ringIdx d.length (pos + i) ≠ q) :
    (storeAt d pos src).getD q 0 = d.getD q 0 := by
  induction src generalizing d pos with
  | nil => rfl
  | cons b rest ih =>
    rw [storeAt]
    have hlen : (d.set (ringIdx d.length pos) b).length = d.length := by simp
    rw [ih]
    · have h0 : ringIdx d.length pos ≠ q := by
        have := h 0 (by simp)
        simpa using this
      simp only [List.getD_eq_getElem?_getD]
      rw [List.getElem?_set_ne h0]
    · intro i hi
      rw [hlen]
      have heq : pos + 1 + i = pos + (i + 1) := by omega
      rw [heq]
      exact h (i + 1) (by simp; omega)

lemma getD_storeAt_hit (src : List Nat) (d : List Nat) (pos : Nat) (i : Nat)
    (hpow : ∃ k, d.length = 2 ^ k) (hi : i < src.length) (hlen : src.length ≤ d.length) :
    (storeAt d pos src).getD (ringIdx d.length (pos + i)) 0 = src.getD i 0 := by
  induction src generalizing d pos i with
  | nil => simp at hi
  | cons b rest ih =>
    have hdpos : 0 < d.length := by
      obtain ⟨k, hk⟩ := hpow
      rw [hk]; positivity
    have hset : (d.set (ringIdx d.length pos) b).length = d.length := by simp
    rw [storeAt]
    match i with
    | 0 =>
      have hq : ringIdx d.length pos < d.length := by
        rw [ringIdx_eq_mod _ _ hpow]
        exact Nat.mod_lt _ hdpos
      have hmiss : ∀ j, j < rest.length →
          ringIdx (d.set (ringIdx d.length pos) b).length (pos + 1 + j) ≠
            ringIdx d.length (pos + 0) := by
        intro j hj
        rw [hset, ringIdx_eq_mod _ _ hpow, ringIdx_eq_mod _ _ hpow]
        have heq : pos + 1 + j = pos + (1 + j) := by omega
        rw [heq]
        apply add_mod_inj
        · simp at hlen; omega
        · omega
        · omega
      rw [getD_storeAt_miss rest _ _ _ hmiss]
      simp only [List.getD_eq_getElem?_getD, Nat.add_zero]
      rw [List.getElem?_set_self hq]
      simp
    | j + 1 =>
      have heq : pos + (j + 1) = pos + 1 + j := by omega
      rw [heq]
      have hgoal := ih (d.set (ringIdx d.length pos) b) (pos + 1) j
        (by rwa [hset]) (by simp only [List.length_cons] at hi; omega)
        (by rw [hset]; simp only [List.length_cons] at hlen; omega)
      rw [hset] at hgoal
      rw [hgoal]
      simp

lemma growSizeGo_spec (need : Nat) (fuel : Nat) : ∀ ns : Nat,
    0 < ns → (∃ k, ns = 2 ^ k) → need ≤ 2 ^ fuel * ns →
      need ≤ ring_buffer.growSizeGo need fuel ns ∧
        (∃ k, ring_buffer.growSizeGo need fuel ns = 2 ^ k) ∧
        0 < ring_buffer.growSizeGo need fuel ns := by
  induction fuel with
  | zero =>
    intro ns h0 hpow hbound
    rw [ring_buffer.growSizeGo]
    refine ⟨by simpa using hbound, hpow, h0⟩
  | succ fuel ih =>
    intro ns h0 hpow hbound
    rw [ring_buffer.growSizeGo]
    by_cases hle : need ≤ ns
    · rw [if_pos hle]
      exact ⟨hle, hpow, h0⟩
    · rw [if_neg hle, if_neg (by omega)]
      refine ih (2 * ns) (by omega) (by obtain ⟨k, rfl⟩ := hpow; exact ⟨k + 1, by ring⟩) ?_
      calc need ≤ 2 ^ (fuel + 1) * ns := hbound
      _ = 2 ^ fuel * (2 * ns) := by ring

lemma growSize_spec (ns need : Nat) :
    0 < ns → (∃ k, ns = 2 ^ k) →
      need ≤ ring_buffer.growSize ns need ∧ (∃ k, ring_buffer.growSize ns need = 2 ^ k) ∧
        0 < ring_buffer.growSize ns need := by
  intro h0 hpow
  have hbound : need ≤ 2 ^ need * ns :=
    calc need ≤ 2 ^ need := Nat.le_of_lt (Nat.lt_two_pow need)
    _ ≤ 2 ^ need * ns := Nat.le_mul_of_pos_right _ h0
  exact growSizeGo_spec need need ns h0 hpow hbound

namespace ring_buffer

lemma toList_length (rb : ring_buffer) : rb.toList.length = rb.used := by
  simp [toList]

lemma toList_getElem (rb : ring_buffer) (i : Nat) (h : i < rb.toList.length) :
    rb.toList[i] =
      rb.data.getD (ringIdx rb.data.length (rb.first_byte + i)) 0 := by
  simp [toList]

lemma resize_spec (rb : ring_buffer) (ns : Nat) (hInv : rb.Inv) (hns : rb.used ≤ ns)
    (hpow : ∃ k, ns = 2 ^ k) :
    (rb.resize ns).Inv ∧ (rb.resize ns).toList = rb.toList ∧
      (rb.resize ns).data.length = ns ∧ (rb.resize ns).used = rb.used ∧
      (rb.resize ns).first_byte = 0 := by
  obtain ⟨hpow0, hused, hfb⟩ := hInv
  have hns0 : 0 < ns := by
    obtain ⟨k, rfl⟩ := hpow
    positivity
  have hwin := window_eq rb.data rb.first_byte rb.used hfb hused
  have hcontent :
      (if rb.first_byte + rb.used ≤ rb.data.length then
        (rb.data.drop rb.first_byte).take rb.used
      else
        rb.data.drop rb.first_byte ++
          rb.data.take (rb.used - (rb.data.length - rb.first_byte))) = rb.toList := by
    rw [hwin]
    unfold toList
    apply List.map_congr_left
    intro i hi
    rw [ringIdx_eq_mod _ _ hpow0]
  have hclen : rb.toList.length = rb.used := toList_length rb
  have hdata : (rb.resize ns).data = rb.toList ++ List.replicate (ns - rb.used) 0 := by
    simp only [resize]
    rw [hcontent]
  have hdatalen : (rb.resize ns).data.length = ns := by
    rw [hdata]
    simp only [List.length_append, List.length_replicate, hclen]
    omega
  have husedeq : (rb.resize ns).used = rb.used := rfl
  have hfbeq : (rb.resize ns).first_byte = 0 := rfl
  refine ⟨⟨by rw [hdatalen]; exact hpow, by rw [hdatalen, husedeq]; omega,
    by rw [hdatalen, hfbeq]; omega⟩, ?_, hdatalen, husedeq, hfbeq⟩
  unfold toList
  rw [husedeq, hfbeq, hdatalen]
  apply List.ext_getElem
  · simp [hclen]
  · intro i h1 h2
    have hi : i < rb.used := by simpa using h1
    simp only [List.getElem_map, List.getElem_range]
    rw [ringIdx_eq_mod _ _ hpow, Nat.zero_add, Nat.mod_eq_of_lt (by omega)]
    have hgd : (rb.resize ns).data.getD i 0 = rb.toList.getD i 0 := by
      rw [hdata]
      simp only [List.getD_eq_getElem?_getD]
      rw [List.getElem?_append_left (by omega)]
    rw [hgd, getD_eq_getElem _ _ (by omega)]
    exact toList_getElem rb i (by rw [toList_length]; omega)

/-- Storing fresh bytes through the view starting at the end of the live
region appends them to the byte queue. -/
lemma toList_store_append (d : List Nat) (fb u : Nat) (src : List Nat)
    (hpow : ∃ k, d.length = 2 ^ k) (hfb : fb < d.length)
    (hfit : u + src.length ≤ d.length) :
    toList ⟨storeAt d (ringIdx d.length (fb + u)) src, u + src.length, fb⟩ =
      toList ⟨d, u, fb⟩ ++ src := by
  have hL : 0 < d.length := by
    obtain ⟨k, hk⟩ := hpow
    rw [hk]; positivity
  have hslen : (storeAt d (ringIdx d.length (fb + u)) src).length = d.length :=
    storeAt_length _ _ _
  have hllen : (toList ⟨d, u, fb⟩).length = u := toList_length _
  apply List.ext_getElem
  · simp [toList_length, toList]
  · intro j h1 h2
    have hj : j < u + src.length := by simpa [toList_length, toList] using h1
    rw [toList_getElem _ j (by rw [toList_length]; exact hj)]
    show (storeAt d (ringIdx d.length (fb + u)) src).getD
      (ringIdx (storeAt d (ringIdx d.length (fb + u)) src).length (fb + j)) 0 = _
    rw [hslen]
    by_cases hcase : j < u
    · rw [getD_storeAt_miss]
      · rw [List.getElem_append_left (by rw [hllen]; exact hcase)]
        rw [toList_getElem _ j (by rw [toList_length]; exact hcase)]
      · intro i hi
        rw [ringIdx_eq_mod _ _ hpow, ringIdx_eq_mod _ _ hpow, ringIdx_eq_mod _ _ hpow]
        rw [Nat.mod_add_mod]
        have heq : fb + u + i = fb + (u + i) := by omega
        rw [heq]
        apply add_mod_inj
        · omega
        · omega
        · omega
    · have hi : j - u < src.length := by omega
      have hidx : ringIdx d.length (fb + j) =
          ringIdx d.length (ringIdx d.length (fb + u) + (j - u)) := by
        rw [ringIdx_eq_mod _ _ hpow, ringIdx_eq_mod _ _ hpow, ringIdx_eq_mod _ _ hpow]
        rw [Nat.mod_add_mod]
        congr 1
        omega
      rw [hidx, getD_storeAt_hit src d _ (j - u) hpow hi (by omega)]
      rw [List.getElem_append_right (by rw [hllen]; omega)]
      rw [getD_eq_getElem _ _ (by omega)]
      congr 1
      rw [hllen]

lemma write_spec (rb : ring_buffer) (src : List Nat) (h : rb.Inv) :
    (rb.write src).Inv ∧ (rb.write src).toList = rb.toList ++ src ∧
      (rb.write src).used = rb.used + src.length := by
  obtain ⟨hpow, hused, hfb⟩ := h
  have hL : 0 < rb.data.length := by
    obtain ⟨k, hk⟩ := hpow
    rw [hk]; positivity
  rw [write]
  split
  case isTrue hc =>
    have hslen : (storeAt rb.data (ringIdx rb.data.length (rb.first_byte + rb.used)) src).length
        = rb.data.length := storeAt_length _ _ _
    refine ⟨⟨by rw [hslen]; exact hpow, by rw [hslen]; exact hc.1, by rw [hslen]; exact hfb⟩,
      ?_, rfl⟩
    have := toList_store_append rb.data rb.first_byte rb.used src hpow hfb hc.1
    exact this
  case isFalse hc =>
    rw [push]
    split
    case isTrue hgrow =>
      set ns := growSize (2 * rb.data.length) (rb.used + src.length) with hns
      have hg := growSize_spec (2 * rb.data.length) (rb.used + src.length) (by omega)
        (by obtain ⟨k, hk⟩ := hpow; exact ⟨k + 1, by rw [hk]; ring⟩)
      have hr := resize_spec rb ns ⟨hpow, hused, hfb⟩ (by omega) hg.2.1
      obtain ⟨⟨hpow2, hused2, hfb2⟩, htl2, hlen2, hu2, hf2⟩ := hr
      set R := rb.resize ns with hR
      have hfit : R.used + src.length ≤ R.data.length := by
        rw [hu2, hlen2]; omega
      have hsa := toList_store_append R.data R.first_byte R.used src hpow2 hfb2 hfit
      have hslen : (storeAt R.data (ringIdx R.data.length (R.first_byte + R.used)) src).length
          = R.data.length := storeAt_length _ _ _
      show Inv ⟨storeAt R.data (ringIdx R.data.length (R.first_byte + R.used)) src,
          R.used + src.length, R.first_byte⟩ ∧
        toList ⟨storeAt R.data (ringIdx R.data.length (R.first_byte + R.used)) src,
          R.used + src.length, R.first_byte⟩ = rb.toList ++ src ∧
        (⟨storeAt R.data (ringIdx R.data.length (R.first_byte + R.used)) src,
          R.used + src.length, R.first_byte⟩ : ring_buffer).used = rb.used + src.length
      refine ⟨⟨?_, ?_, ?_⟩, ?_, ?_⟩
      · show (∃ k, (storeAt R.data (ringIdx R.data.length (R.first_byte + R.used)) src).length
          = 2 ^ k)
        rw [hslen]; exact hpow2
      · show R.used + src.length ≤
          (storeAt R.data (ringIdx R.data.length (R.first_byte + R.used)) src).length
        rw [hslen]; omega
      · show R.first_byte <
          (storeAt R.data (ringIdx R.data.length (R.first_byte + R.used)) src).length
        rw [hslen]; exact hfb2
      · rw [hsa, htl2]
      · show R.used + src.length = rb.used + src.length
        rw [hu2]
    case isFalse hgrow =>
      have hfit : rb.used + src.length ≤ rb.data.length := by omega
      have hsa := toList_store_append rb.data rb.first_byte rb.used src hpow hfb hfit
      have hslen : (storeAt rb.data (ringIdx rb.data.length (rb.first_byte + rb.used)) src).length
          = rb.data.length := storeAt_length _ _ _
      show Inv ⟨storeAt rb.data (ringIdx rb.data.length (rb.first_byte + rb.used)) src,
          rb.used + src.length, rb.first_byte⟩ ∧
        toList ⟨storeAt rb.data (ringIdx rb.data.length (rb.first_byte + rb.used)) src,
          rb.used + src.length, rb.first_byte⟩ = rb.toList ++ src ∧
        (⟨storeAt rb.data (ringIdx rb.data.length (rb.first_byte + rb.used)) src,
          rb.used + src.length, rb.first_byte⟩ : ring_buffer).used = rb.used + src.length
      refine ⟨⟨?_, ?_, ?_⟩, hsa, rfl⟩
      · show (∃ k, (storeAt rb.data (ringIdx rb.data.length (rb.first_byte + rb.used)) src).length
          = 2 ^ k)
        rw [hslen]; exact hpow
      · show rb.used + src.length ≤
          (storeAt rb.data (ringIdx rb.data.length (rb.first_byte + rb.used)) src).length
        rw [hslen]; exact hfit
      · show rb.first_byte <
          (storeAt rb.data (ringIdx rb.data.length (rb.first_byte + rb.used)) src).length
        rw [hslen]; exact hfb

lemma pop_spec (rb : ring_buffer) (n : Nat) (h : rb.Inv) (hn : n ≤ rb.used) :
    (rb.pop n).Inv ∧ (rb.pop n).toList = rb.toList.drop n := by
  obtain ⟨hpow, hused, hfb⟩ := h
  have hL : 0 < rb.data.length := by
    obtain ⟨k, hk⟩ := hpow
    rw [hk]; positivity
  rw [pop]
  split
  case isTrue hz =>
    refine ⟨⟨hpow, by simpa using Nat.zero_le _, by simpa using hL⟩, ?_⟩
    have : rb.toList.length = rb.used := toList_length rb
    rw [List.drop_eq_nil_of_le (by omega)]
    simp [toList]
  case isFalse hz =>
    refine ⟨⟨hpow, ?_, ?_⟩, ?_⟩
    · show rb.used - n ≤ rb.data.length
      omega
    · show ringIdx rb.data.length (rb.first_byte + n) < rb.data.length
      rw [ringIdx_eq_mod _ _ hpow]
      exact Nat.mod_lt _ hL
    apply List.ext_getElem
    · simp [toList_length, List.length_drop]
    · intro i h1 h2
      have hi : i < rb.used - n := by
        simpa [toList, List.length_map, List.length_range] using h1
      rw [toList_getElem _ i (by rw [toList_length]; exact hi)]
      show rb.data.getD (ringIdx rb.data.length (ringIdx rb.data.length (rb.first_byte + n) + i)) 0
        = _
      rw [List.getElem_drop, toList_getElem rb (n + i) (by rw [toList_length]; omega)]
      rw [ringIdx_eq_mod _ _ hpow, ringIdx_eq_mod _ _ hpow, ringIdx_eq_mod _ _ hpow]
      rw [Nat.mod_add_mod]
      have heq : rb.first_byte + n + i = rb.first_byte + (n + i) := by omega
      rw [heq]

lemma read_spec (rb : ring_buffer) (n : Nat) (h : rb.Inv) (hn : n ≤ rb.used) :
    (rb.read n).1 = rb.toList.take n ∧ (rb.read n).2 = rb.pop n := by
  obtain ⟨hpow, hused, hfb⟩ := h
  refine ⟨?_, rfl⟩
  show (if rb.first_byte + n ≤ rb.data.length then (rb.data.drop rb.first_byte).take n
    else rb.data.drop rb.first_byte ++ rb.data.take (n - (rb.data.length - rb.first_byte))) = _
  rw [window_eq rb.data rb.first_byte n hfb (by omega)]
  apply List.ext_getElem
  · simp [toList_length, toList]
    omega
  · intro i h1 h2
    have hi : i < n := by simpa using h1
    simp only [List.getElem_map, List.getElem_range]
    rw [List.getElem_take, toList_getElem rb i (by rw [toList_length]; omega), ringIdx_eq_mod _ _ hpow]

end ring_buffer

/-! ### Primitive write/read sequences over the ring buffer -/

/-- Width tag of a primitive ring-buffer access. -/
inductive PrimTag
  | ti8 | tu8 | ti16 | tu16 | ti32 | tu32
deriving DecidableEq, Repr

/-- A primitive value as written to or read from the ring buffer. -/
inductive PrimVal
  | vi8 (v : Int)
  | vu8 (v : Nat)
  | vi16 (v : Int)
  | vu16 (v : Nat)
  | vi32 (v : Int)
  | vu32 (v : Nat)
deriving DecidableEq, Repr

namespace PrimVal

/-- The width tag of a primitive value. -/
def tag : PrimVal → PrimTag
  | .vi8 _ => .ti8
  | .vu8 _ => .tu8
  | .vi16 _ => .ti16
  | .vu16 _ => .tu16
  | .vi32 _ => .ti32
  | .vu32 _ => .tu32

/-- The C++ parameter types (`int8_t`, `uint8_t`, ...) bound the values. -/
def Valid : PrimVal → Prop
  | .vi8 v => -128 ≤ v ∧ v < 128
  | .vu8 v => v < 256
  | .vi16 v => -32768 ≤ v ∧ v < 32768
  | .vu16 v => v < 65536
  | .vi32 v => -2147483648 ≤ v ∧ v < 2147483648
  | .vu32 v => v < 4294967296

instance : DecidablePred Valid := by
  intro p
  cases p <;> simp only [Valid] <;> infer_instance

end PrimVal

/-- Dispatches a primitive value to the matching `ring_buffer::write_*`. -/
def writePrim (rb : ring_buffer) : PrimVal → ring_buffer
  | .vi8 v => rb.write_i8 v
  | .vu8 v => rb.write_u8 v
  | .vi16 v => rb.write_i16 v
  | .vu16 v => rb.write_u16 v
  | .vi32 v => rb.write_i32 v
  | .vu32 v => rb.write_u32 v

/-- The bytes a primitive write appends (the `base::write_*` byte patterns). -/
def serializePrim : PrimVal → List Nat
  | .vi8 v => write_i8_bytes v
  | .vu8 v => write_u8_bytes v
  | .vi16 v => write_i16_bytes v
  | .vu16 v => write_u16_bytes v
  | .vi32 v => write_i32_bytes v
  | .vu32 v => write_u32_bytes v

/-- Byte width of a tag. -/
def PrimTag.width : PrimTag → Nat
  | .ti8 => 1
  | .tu8 => 1
  | .ti16 => 2
  | .tu16 => 2
  | .ti32 => 4
  | .tu32 => 4

/-- Dispatches a width tag to the matching `ring_buffer::read_*`. -/
def readPrim (t : PrimTag) (rb : ring_buffer) : PrimVal × ring_buffer :=
  match t with
  | .ti8 => let r := rb.read_i8; (.vi8 r.1, r.2)
  | .tu8 => let r := rb.read_u8; (.vu8 r.1, r.2)
  | .ti16 => let r := rb.read_i16; (.vi16 r.1, r.2)
  | .tu16 => let r := rb.read_u16; (.vu16 r.1, r.2)
  | .ti32 => let r := rb.read_i32; (.vi32 r.1, r.2)
  | .tu32 => let r := rb.read_u32; (.vu32 r.1, r.2)

/-- Performs a sequence of primitive writes. -/
def writeAll (rb : ring_buffer) : List PrimVal → ring_buffer
  | [] => rb
  | p :: rest => writeAll (writePrim rb p) rest

/-- Performs a sequence of primitive reads of the given widths. -/
def readAll (rb : ring_buffer) : List PrimTag → List PrimVal × ring_buffer
  | [] => ([], rb)
  | t :: ts =>
    let r := readPrim t rb
    let rs := readAll r.2 ts
    (r.1 :: rs.1, rs.2)

/-- The byte image of a sequence of primitive writes. -/
def serializeAll : List PrimVal → List Nat
  | [] => []
  | p :: rest => serializePrim p ++ serializeAll rest

lemma writePrim_eq (rb : ring_buffer) (p : PrimVal) :
    writePrim rb p = rb.write (serializePrim p) := by
  cases p <;> rfl

lemma serializePrim_length (p : PrimVal) :
    (serializePrim p).length = p.tag.width := by
  cases p <;> rfl

lemma writeAll_spec (ops : List PrimVal) : ∀ rb : ring_buffer, rb.Inv →
    (writeAll rb ops).Inv ∧ (writeAll rb ops).toList = rb.toList ++ serializeAll ops := by
  induction ops with
  | nil => intro rb h; exact ⟨h, by simp [writeAll, serializeAll]⟩
  | cons p rest ih =>
    intro rb h
    have hw := ring_buffer.write_spec rb (serializePrim p) h
    have hrec := ih (rb.write (serializePrim p)) hw.1
    rw [writeAll, writePrim_eq]
    refine ⟨hrec.1, ?_⟩
    rw [hrec.2, hw.2.1, serializeAll]
    simp [List.append_assoc]

/-! Deserialisation inverts serialisation for in-range values. -/

lemma read_write_i8 (v : Int) (h : -128 ≤ v ∧ v < 128) :
    Bracket.read_i8 (write_i8_bytes v) = v := by
  simp only [Bracket.read_i8, write_i8_bytes, toI8, toU8, unsignedOfInt, List.getD_cons_zero]
  split <;> omega

lemma read_write_u8 (v : Nat) (h : v < 256) :
    Bracket.read_u8 (write_u8_bytes v) = v := by
  simp only [Bracket.read_u8, write_u8_bytes, toU8, List.getD_cons_zero]
  omega

lemma read_write_i16 (v : Int) (h : -32768 ≤ v ∧ v < 32768) :
    Bracket.read_i16 (write_i16_bytes v) = v := by
  simp only [Bracket.read_i16, write_i16_bytes, toI16, toU8, unsignedOfInt,
    List.getD_cons_zero, List.getD_cons_succ]
  split <;> omega

lemma read_write_u16 (v : Nat) (h : v < 65536) :
    unsignedOfInt 16 (Bracket.read_u16 (write_u16_bytes v)) = v := by
  simp only [Bracket.read_u16, write_u16_bytes, toI16, toU8, unsignedOfInt,
    List.getD_cons_zero, List.getD_cons_succ]
  split <;> omega

lemma read_write_i32 (v : Int) (h : -2147483648 ≤ v ∧ v < 2147483648) :
    Bracket.read_i32 (write_i32_bytes v) = v := by
  simp only [Bracket.read_i32, write_i32_bytes, toI32, toU8, unsignedOfInt,
    List.getD_cons_zero, List.getD_cons_succ]
  split <;> omega

lemma read_write_u32 (v : Nat) (h : v < 4294967296) :
    Bracket.read_u32 (write_u32_bytes v) = v := by
  simp only [Bracket.read_u32, write_u32_bytes, toU8,
    List.getD_cons_zero, List.getD_cons_succ]
  omega

lemma readPrim_spec (p : PrimVal) (rb : ring_buffer) (rest : List Nat)
    (hInv : rb.Inv) (hp : p.Valid) (htl : rb.toList = serializePrim p ++ rest) :
    readPrim p.tag rb = (p, rb.pop p.tag.width) := by
  have hlen : rb.toList.length = rb.used := ring_buffer.toList_length rb
  have hw : p.tag.width ≤ rb.used := by
    rw [← hlen, htl]
    simp only [List.length_append, ← serializePrim_length]
    omega
  have hr := ring_buffer.read_spec rb p.tag.width hInv hw
  have htake : rb.toList.take p.tag.width = serializePrim p := by
    rw [htl, ← serializePrim_length p]
    exact List.take_left _ _
  cases p with
  | vi8 v =>
    simp only [readPrim, PrimVal.tag, PrimTag.width, ring_buffer.read_i8] at hr ⊢
    simp only [PrimVal.tag, PrimTag.width] at htake
    rw [hr.1, hr.2, htake]
    simp only [serializePrim]
    rw [read_write_i8 v hp]
  | vu8 v =>
    simp only [readPrim, PrimVal.tag, PrimTag.width, ring_buffer.read_u8] at hr ⊢
    simp only [PrimVal.tag, PrimTag.width] at htake
    rw [hr.1, hr.2, htake]
    simp only [serializePrim]
    rw [read_write_u8 v hp]
  | vi16 v =>
    simp only [readPrim, PrimVal.tag, PrimTag.width, ring_buffer.read_i16] at hr ⊢
    simp only [PrimVal.tag, PrimTag.width] at htake
    rw [hr.1, hr.2, htake]
    simp only [serializePrim]
    rw [read_write_i16 v hp]
  | vu16 v =>
    simp only [readPrim, PrimVal.tag, PrimTag.width, ring_buffer.read_u16] at hr ⊢
    simp only [PrimVal.tag, PrimTag.width] at htake
    rw [hr.1, hr.2, htake]
    simp only [serializePrim]
    rw [read_write_u16 v hp]
  | vi32 v =>
    simp only [readPrim, PrimVal.tag, PrimTag.width, ring_buffer.read_i32] at hr ⊢
    simp only [PrimVal.tag, PrimTag.width] at htake
    rw [hr.1, hr.2, htake]
    simp only [serializePrim]
    rw [read_write_i32 v hp]
  | vu32 v =>
    simp only [readPrim, PrimVal.tag, PrimTag.width, ring_buffer.read_u32] at hr ⊢
    simp only [PrimVal.tag, PrimTag.width] at htake
    rw [hr.1, hr.2, htake]
    simp only [serializePrim]
    rw [read_write_u32 v hp]

lemma readAll_spec (ops : List PrimVal) : ∀ rb : ring_buffer, rb.Inv →
    (∀ p ∈ ops, p.Valid) → rb.toList = serializeAll ops →
    (readAll rb (ops.map PrimVal.tag)).1 = ops := by
  induction ops with
  | nil => intro rb _ _ _; rfl
  | cons p rest ih =>
    intro rb hInv hval htl
    rw [serializeAll] at htl
    have hrp := readPrim_spec p rb (serializeAll rest) hInv (hval p (by simp)) htl
    have hpop := ring_buffer.pop_spec rb p.tag.width hInv (by
      have hlen : rb.toList.length = rb.used := ring_buffer.toList_length rb
      rw [← hlen, htl]
      simp only [List.length_append, ← serializePrim_length]
      omega)
    have hdrop : (rb.pop p.tag.width).toList = serializeAll rest := by
      rw [hpop.2, htl, ← serializePrim_length p]
      exact List.drop_left _ _
    simp only [List.map_cons, readAll, hrp]
    rw [ih (rb.pop p.tag.width) hpop.1 (fun q hq => hval q (by simp [hq])) hdrop]

end Bracket

namespace Bracket

/-- Claim C7: ring buffer little-endian round-trip.  For every sequence of
primitive writes, reading back with read primitives of the same widths
returns the written values; and in the literal case, writing
i8=0x01, u8=0x81, i16=0x0203, i16=0x8283, i32=0x04050607, u32=0x84858687
into a ring buffer of initial capacity 4 and reading u32, i32, u16, i16,
u8, i8 yields 0x02038101, 0x06078283, 0x0405, 0x8687 as signed, 0x85 and
0x84 as signed, in that order. -/
theorem ring_buffer_roundtrip :
    (∀ (cap : Nat) (ops : List PrimVal), (∃ k, cap = 2 ^ k) → (∀ p ∈ ops, p.Valid) →
      (readAll (writeAll (ring_buffer.mk0 cap) ops) (ops.map PrimVal.tag)).1 = ops) ∧
    (let rb := ((((((ring_buffer.mk0 4).write_i8 0x01).write_u8 0x81).write_i16
          0x0203).write_i16 (toI16 0x8283)).write_i32 0x04050607).write_u32 0x84858687
     let r1 := rb.read_u32
     let r2 := r1.2.read_i32
     let r3 := r2.2.read_u16
     let r4 := r3.2.read_i16
     let r5 := r4.2.read_u8
     let r6 := r5.2.read_i8
     r1.1 = 0x02038101 ∧ r2.1 = 0x06078283 ∧ r3.1 = 0x0405 ∧
       r4.1 = toI16 0x8687 ∧ r5.1 = 0x85 ∧ r6.1 = toI8 0x84) := by
  constructor
  · intro cap ops hcap hval
    have hcap0 : 0 < cap := by
      obtain ⟨k, rfl⟩ := hcap
      positivity
    have hInv : (ring_buffer.mk0 cap).Inv := by
      refine ⟨by simpa [ring_buffer.mk0] using hcap, by simp [ring_buffer.mk0], ?_⟩
      simpa [ring_buffer.mk0] using hcap0
    have hw := writeAll_spec ops (ring_buffer.mk0 cap) hInv
    have hempty : (ring_buffer.mk0 cap).toList = [] := by
      simp [ring_buffer.toList, ring_buffer.mk0]
    exact readAll_spec ops _ hw.1 hval (by rw [hw.2, hempty]; simp)
  · decide

/-- Witness for C7: the general round-trip theorem applied to the literal
write sequence of the repository's `RingBufferTest.ReadWritePrimitives`. -/
theorem ring_buffer_roundtrip_witness :
    (readAll
      (writeAll (ring_buffer.mk0 4)
        [.vi8 0x01, .vu8 0x81, .vi16 0x0203, .vi16 (toI16 0x8283),
         .vi32 0x04050607, .vu32 0x84858687])
      ([PrimVal.vi8 0x01, .vu8 0x81, .vi16 0x0203, .vi16 (toI16 0x8283),
        .vi32 0x04050607, .vu32 0x84858687].map PrimVal.tag)).1 =
      [.vi8 0x01, .vu8 0x81, .vi16 0x0203, .vi16 (toI16 0x8283),
       .vi32 0x04050607, .vu32 0x84858687] :=
  ring_buffer_roundtrip.1 4
    [.vi8 0x01, .vu8 0x81, .vi16 0x0203, .vi16 (toI16 0x8283),
     .vi32 0x04050607, .vu32 0x84858687]
    ⟨2, rfl⟩ (by decide)

end Bracket

namespace Bracket

/-! ## irc/message.h, irc/message.cc: IRC protocol messages

`Message::Parse` operates on a byte pointer and a count; here the input
is a `List Char`.  The `prefix_` string is the field `pfx`, the cached
`prefix_nick_` view is materialised as the field `pfxNick`, mirroring
the view the source takes over the prefix storage.
-/

/-- Embeds `irc::Message` (fields `prefix_`, `prefix_nick_`, `command_`, `args_`). -/
structure Message where
  pfx : String
  pfxNick : String
  command : String
  args : List String
deriving DecidableEq, Repr

/-- Embeds the argument loop of `Message::Parse`: skip spaces; a `:` arg
absorbs the rest of the line; otherwise scan to the next space.  The
structural fuel only bounds the iteration count; every round consumes at
least one character, so `l.length` rounds always suffice. -/
def parseArgsGo : Nat → List Char → List String
  | 0, _ => []
  | fuel + 1, l =>
    let l' := l.dropWhile (· = ' ')
    match l' with
    | [] => []
    | ':' :: t => [String.mk t]
    | _ =>
      let arg := l'.takeWhile (· ≠ ' ')
      String.mk arg :: parseArgsGo fuel (l'.drop arg.length)

/-- The argument loop of `Message::Parse` at its natural fuel. -/
def parseArgs (l : List Char) : List String := parseArgsGo l.length l

namespace Message

/-- Embeds `Message::Parse`.  Returns `none` where the source returns
`false` (contents unspecified). -/
def Parse (input : List Char) : Option Message :=
  -- parse prefix & extract nick portion
  let prefixStep : Option (String × String × List Char) :=
    match input with
    | ':' :: p =>
      match p.findIdx? (· = ' ') with
      | none => none
      | some d =>
        let prefixChars := p.take d
        let nick :=
          match prefixChars.findIdx? (· = '!') with
          | some n => String.mk (prefixChars.take n)
          | none => ""
        some (String.mk prefixChars, nick, p.drop d)
    | _ => some ("", "", input)
  match prefixStep with
  | none => none
  | some (pfx, nick, rest1) =>
    -- skip any extra leading whitespace
    let rest2 := rest1.dropWhile (· = ' ')
    -- parse command
    let cmdChars := rest2.takeWhile (· ≠ ' ')
    if cmdChars.length = 0 then none
    else
      -- parse any arguments
      some ⟨pfx, nick, String.mk cmdChars, parseArgs (rest2.drop cmdChars.length)⟩

end Message

end Bracket

namespace Bracket

/-- Claim C2 (evaluation): `Message::Parse` sets the prefix-nick view
whenever the prefix contains a `!`, with no check that an `@` follows or
that the user and host parts are non-empty.  Parsing
`:nick!user@host PRIVMSG :hey` yields prefix-nick `nick` as the claim
states, but `:nick!something`, `:nick!@host`, `:nick!user@` and `:nick!@`
also yield prefix-nick `nick`, where the claim (and the repository's own
tests `ParsePrefixNick_NoSep2`, `_EmptyUser`, `_EmptyHost`,
`_EmptyUserHost`, and the doc comment of `prefix_nick()`) require an
empty prefix-nick.  Only the `@`-without-`!` form yields an empty view. -/
theorem message_parse_prefix_nick_eval :
    (Message.Parse ":nick!user@host PRIVMSG :hey".toList).map Message.pfxNick = some "nick" ∧
    (Message.Parse ":something@host PRIVMSG :hey".toList).map Message.pfxNick = some "" ∧
    (Message.Parse ":nick!something PRIVMSG :hey".toList).map Message.pfxNick = some "nick" ∧
    (Message.Parse ":nick!@host PRIVMSG :hey".toList).map Message.pfxNick = some "nick" ∧
    (Message.Parse ":nick!user@ PRIVMSG :hey".toList).map Message.pfxNick = some "nick" ∧
    (Message.Parse ":nick!@ PRIVMSG :hey".toList).map Message.pfxNick = some "nick" := by
  refine ⟨?_, ?_, ?_, ?_, ?_, ?_⟩ <;> decide

end Bracket

namespace Bracket

/-! ## irc/message.cc: Message::Write

`Write` returns the natural serialised size; the buffer receives the
first `size` bytes of the natural serialisation.  Here `serialize`
produces the full natural character sequence; callers truncate. -/

/-- Embeds the argument part of `Message::Write`: each argument is
preceded by a space, and the last argument additionally by `:` when it
contains a space. -/
def serializeArgs : List String → List Char
  | [] => []
  | [a] => ' ' :: (if a.toList.contains ' ' then ':' :: a.toList else a.toList)
  | a :: rest => (' ' :: a.toList) ++ serializeArgs rest

namespace Message

/-- Embeds `Message::Write` (natural, untruncated output): optional
`:prefix ` part, the command, then the arguments. -/
def serialize (m : Message) : List Char :=
  (if m.pfx ≠ "" then ':' :: m.pfx.toList ++ [' '] else []) ++
    m.command.toList ++ serializeArgs m.args

end Message

/-! ## irc/connection.cc: output flood control

`write_buffer_` is a `ring_buffer` in the source; the flood-control
model carries its byte-queue abstraction (the `toList` view proved
faithful above) as a `List Nat`.  The wall clock enters `Flush` only as
the elapsed milliseconds since `write_credit_time_`; the socket enters
only as the number of bytes it accepts before would-block.
-/

/-- Embeds `irc::kMaxMessageSize`. -/
def kMaxMessageSize : Nat := 512

/-- Embeds `Connection::kMaxWriteCredit`. -/
def kMaxWriteCredit : Int := 10000

/-- Embeds the `extra_cost` surcharge table of irc/connection.cc. -/
def extra_cost (cmd : String) : Nat :=
  if cmd = "JOIN" ∨ cmd = "NICK" ∨ cmd = "PART" ∨ cmd = "PING" ∨ cmd = "USERHOST" then 1000
  else if cmd = "KICK" ∨ cmd = "MODE" ∨ cmd = "TOPIC" then 2000
  else if cmd = "WHO" then 3000
  else 0

/-- Embeds `Connection::State`. -/
inductive ConnState
  | kDisconnected | kConnecting | kRegistered | kReady
deriving DecidableEq, Repr

/-- The flood-control slice of `irc::Connection`: connection state, the
outgoing byte buffer, the parallel `(bytes, per-message cost)` queue and
the credit counter. -/
structure Connection where
  state : ConnState
  write_buffer : List Nat
  write_queue : List (Nat × Nat)
  write_credit : Int
deriving DecidableEq, Repr

/-- Embeds the affordable-prefix loop of `Connection::Flush`: the number
of bytes of the leading messages whose summed cost `10*bytes + percmd`
fits the remaining credit. -/
def affordable (credit_left : Int) : List (Nat × Nat) → Nat
  | [] => 0
  | (b, s) :: rest =>
    let cost : Int := 10 * b + s
    if cost > credit_left then 0
    else b + affordable (credit_left - cost) rest

/-- Embeds the charge loop of `Connection::Flush`: pops `p` sent bytes
off the message queue, charging full cost `10*bytes + percmd` for fully
sent messages and `10*pop` for a partially sent head (the per-command
cost stays owed).  Returns the remaining queue and the total debit.
(The `CHECK(!write_queue_.empty())` case cannot arise because at most
`size`-many queued bytes are ever written.) -/
def chargeLoop (p : Nat) (queue : List (Nat × Nat)) : List (Nat × Nat) × Int :=
  match queue with
  | [] => ([], 0)
  | (b, s) :: rest =>
    if p = 0 then ((b, s) :: rest, 0)
    else if b ≤ p then
      let r := chargeLoop (p - b) rest
      (r.1, r.2 + (10 * b + s))
    else
      ((b - p, s) :: rest, 10 * p)

/-- Result of one `Flush`: the new connection state, the bytes handed to
the socket, whether writability interest was left enabled, and the delay
of the credit-replenishment timer when one was armed. -/
structure FlushResult where
  conn : Connection
  wrote : Nat
  wantWrite : Bool
  creditTimer : Option Int
deriving DecidableEq, Repr

/-- Embeds `Connection::Flush`.  `elapsedMs` is the wall-clock time since
`write_credit_time_`; the socket accepts up to `accept` bytes before
would-block (each slice write returns what fits, as in
`BasicSocket::Write`). -/
def Flush (elapsedMs : Nat) (accept : Nat) (c : Connection) : FlushResult :=
  if c.write_queue.isEmpty then ⟨c, 0, false, none⟩
  else
    -- update credit estimate
    let credit :=
      if c.write_credit < kMaxWriteCredit then
        min (c.write_credit + min (elapsedMs : Int) kMaxWriteCredit) kMaxWriteCredit
      else c.write_credit
    -- see how much we can write
    let can_write := affordable credit c.write_queue
    -- try to send that much
    let wrote := min can_write accept
    -- pop off what we managed to write
    let charged := chargeLoop wrote c.write_queue
    let c' : Connection :=
      if wrote > 0 then
        { c with write_buffer := c.write_buffer.drop wrote,
                 write_queue := charged.1,
                 write_credit := credit - charged.2 }
      else { c with write_credit := credit }
    -- if we couldn't fit everything we can afford, start waiting immediately
    if wrote < can_write then ⟨c', wrote, true, none⟩
    else
      -- if we had anything left, see how long we need to wait to afford that
      match c'.write_queue with
      | [] => ⟨c', wrote, false, none⟩
      | (b, s) :: _ =>
        let cost : Int := 10 * b + s
        let debt := max (cost - c'.write_credit) 0
        ⟨c', wrote, false, some debt⟩

/-- Embeds `Connection::SendNow`: serialises the message (truncated to
510 bytes), appends CR-LF, enqueues the `(bytes, cost)` record, and
flushes when the queue was previously empty. -/
def SendNow (elapsedMs accept : Nat) (m : Message) (c : Connection) : FlushResult :=
  let wasEmpty := c.write_queue.isEmpty
  let kMaxContentSize := kMaxMessageSize - 2
  let write_size := min m.serialize.length kMaxContentSize
  let bytes := (m.serialize.take write_size).map Char.toNat ++ [13, 10]
  let cost := 1000 + extra_cost m.command
  let c' : Connection :=
    { c with write_buffer := c.write_buffer ++ bytes,
             write_queue := c.write_queue ++ [(write_size + 2, cost)] }
  if wasEmpty then Flush elapsedMs accept c' else ⟨c', 0, false, none⟩

/-- Embeds the public `Connection::Send`: drops the message in any
non-`kReady` state. -/
def Send (elapsedMs accept : Nat) (m : Message) (c : Connection) : FlushResult :=
  if c.state ≠ ConnState.kReady then ⟨c, 0, false, none⟩
  else SendNow elapsedMs accept m c

end Bracket

namespace Bracket

lemma extra_cost_le (cmd : String) : extra_cost cmd ≤ 3000 := by
  unfold extra_cost
  split_ifs <;> omega

lemma affordable_single (credit : Int) (b s : Nat) (h : 10 * (b : Int) + s ≤ credit) :
    affordable credit [(b, s)] = b := by
  unfold affordable
  rw [if_neg (by push_cast; omega)]
  simp [affordable]

lemma chargeLoop_single (n s : Nat) (h : 0 < n) :
    chargeLoop n [(n, s)] = ([], 10 * (n : Int) + s) := by
  unfold chargeLoop
  rw [if_neg (by omega), if_pos (le_refl n)]
  simp [chargeLoop]

/-- Claim C1 (amended): starting from full credit (10000 units) with an
empty queue, sending one message whose truncated serialised form
(without CR-LF) is N bytes and whose command carries surcharge S debits
exactly `10*(N+2) + 1000 + S` credit units — ten per wire byte, CR-LF
included, plus the 1000-unit per-message base cost plus the surcharge —
and writes exactly N+2 bytes to the socket, whenever the socket accepts
all offered bytes.  Afterwards the buffer and queue are empty, write
interest is off and no credit timer is armed. -/
theorem irc_flood_send_cost (m : Message) (elapsedMs accept : Nat)
    (hacc : min m.serialize.length (kMaxMessageSize - 2) + 2 ≤ accept) :
    (Send elapsedMs accept m ⟨ConnState.kReady, [], [], kMaxWriteCredit⟩).wrote
        = min m.serialize.length (kMaxMessageSize - 2) + 2 ∧
    kMaxWriteCredit -
        (Send elapsedMs accept m ⟨ConnState.kReady, [], [], kMaxWriteCredit⟩).conn.write_credit
      = 10 * ((min m.serialize.length (kMaxMessageSize - 2) : Int) + 2) + 1000
          + extra_cost m.command ∧
    (Send elapsedMs accept m ⟨ConnState.kReady, [], [], kMaxWriteCredit⟩).conn.write_buffer = []
      ∧
    (Send elapsedMs accept m ⟨ConnState.kReady, [], [], kMaxWriteCredit⟩).conn.write_queue = []
      ∧
    (Send elapsedMs accept m ⟨ConnState.kReady, [], [], kMaxWriteCredit⟩).wantWrite = false ∧
    (Send elapsedMs accept m ⟨ConnState.kReady, [], [], kMaxWriteCredit⟩).creditTimer = none := by
  set N := min m.serialize.length (kMaxMessageSize - 2) with hN
  have hN510 : N ≤ 510 := by
    rw [hN]
    simp only [kMaxMessageSize]
    omega
  have hS := extra_cost_le m.command
  set S := extra_cost m.command with hS0
  have hsend : Send elapsedMs accept m ⟨ConnState.kReady, [], [], kMaxWriteCredit⟩
      = SendNow elapsedMs accept m ⟨ConnState.kReady, [], [], kMaxWriteCredit⟩ := by
    rw [Send, if_neg (by simp)]
  rw [hsend]
  rw [SendNow]
  simp only [List.isEmpty_nil, if_true, List.nil_append]
  set bytes := (m.serialize.take N).map Char.toNat ++ [13, 10] with hbytes
  have hblen : bytes.length = N + 2 := by
    rw [hbytes]
    simp [hN]
  rw [Flush]
  simp only [List.isEmpty_cons, if_false]
  have hcredit :
      (if (kMaxWriteCredit : Int) < kMaxWriteCredit then
        min (kMaxWriteCredit + min (elapsedMs : Int) kMaxWriteCredit) kMaxWriteCredit
      else kMaxWriteCredit) = kMaxWriteCredit := by
    rw [if_neg (lt_irrefl _)]
  rw [hcredit]
  have hcost : 10 * ((N : Int) + 2) + (1000 + S) ≤ kMaxWriteCredit := by
    rw [kMaxWriteCredit]
    push_cast
    omega
  have haff : affordable kMaxWriteCredit [(N + 2, 1000 + S)] = N + 2 := by
    apply affordable_single
    push_cast at hcost ⊢
    omega
  rw [haff]
  have hwrote : min (N + 2) accept = N + 2 := by omega
  rw [hwrote]
  have hcharge := chargeLoop_single (N + 2) (1000 + S) (by omega)
  rw [hcharge]
  simp only [if_pos (by omega : 0 < N + 2)]
  rw [if_neg (by omega : ¬ N + 2 < N + 2)]
  simp only [List.drop_eq_nil_of_le (by rw [hblen] : bytes.length ≤ N + 2)]
  refine ⟨rfl, ?_, rfl, rfl, rfl, rfl⟩
  have hmin : min ((m.serialize.length : Int)) ((kMaxMessageSize : Int) - 2) = (N : Int) := by
    rw [hN]
    simp only [kMaxMessageSize]
    omega
  rw [hmin]
  push_cast
  ring

/-- Claim C1 (counterexample): for the message `PRIVMSG #chan :hello
there` (serialised form of N = 26 bytes, surcharge S = 0), the code
writes 28 bytes but debits 1280 credit units, not the `10N + S = 260`
the claim states. -/
theorem irc_flood_send_cost_counterexample :
    (Send 0 600 ⟨"", "", "PRIVMSG", ["#chan", "hello there"]⟩
        ⟨ConnState.kReady, [], [], 10000⟩).wrote = 28 ∧
    (⟨"", "", "PRIVMSG", ["#chan", "hello there"]⟩ : Message).serialize.length = 26 ∧
    extra_cost "PRIVMSG" = 0 ∧
    10000 - (Send 0 600 ⟨"", "", "PRIVMSG", ["#chan", "hello there"]⟩
        ⟨ConnState.kReady, [], [], 10000⟩).conn.write_credit = 1280 ∧
    (1280 : Int) ≠ 10 * 26 + 0 := by
  refine ⟨?_, ?_, ?_, ?_, ?_⟩ <;> decide

/-- Witness for C1: the amended cost theorem evaluated at the concrete
message `PRIVMSG #chan :hello there` with a socket accepting 600 bytes. -/
theorem irc_flood_send_cost_witness :
    (Send 0 600 ⟨"", "", "PRIVMSG", ["#chan", "hello there"]⟩
        ⟨ConnState.kReady, [], [], kMaxWriteCredit⟩).wrote
      = min (⟨"", "", "PRIVMSG", ["#chan", "hello there"]⟩ : Message).serialize.length
          (kMaxMessageSize - 2) + 2 ∧
    kMaxWriteCredit - (Send 0 600 ⟨"", "", "PRIVMSG", ["#chan", "hello there"]⟩
        ⟨ConnState.kReady, [], [], kMaxWriteCredit⟩).conn.write_credit
      = 10 * ((min (⟨"", "", "PRIVMSG", ["#chan", "hello there"]⟩ : Message).serialize.length
          (kMaxMessageSize - 2) : Int) + 2) + 1000 + extra_cost "PRIVMSG" := by
  have h := irc_flood_send_cost ⟨"", "", "PRIVMSG", ["#chan", "hello there"]⟩ 0 600 (by decide)
  exact ⟨h.1, h.2.1⟩

end Bracket

namespace Bracket

/-- Claim C8: every message passed to the public `Send` while the
connection state is not `kReady` is silently dropped: the connection
(byte buffer, write queue, credit, state) is unchanged and no bytes are
handed to the socket. -/
theorem irc_send_non_ready_drops (elapsedMs accept : Nat) (m : Message) (c : Connection)
    (h : c.state ≠ ConnState.kReady) :
    (Send elapsedMs accept m c).conn = c ∧ (Send elapsedMs accept m c).wrote = 0 ∧
      (Send elapsedMs accept m c).conn.write_buffer = c.write_buffer ∧
      (Send elapsedMs accept m c).conn.write_queue = c.write_queue := by
  rw [Send, if_pos h]
  exact ⟨rfl, rfl, rfl, rfl⟩

/-- Witness for C8: a `PRIVMSG` sent in the `kConnecting` state with a
non-empty queue is dropped whole. -/
theorem irc_send_non_ready_drops_witness :
    (Send 5 600 ⟨"", "", "PRIVMSG", ["#chan", "hi"]⟩
        ⟨ConnState.kConnecting, [65], [(1, 1000)], 9000⟩).conn
      = ⟨ConnState.kConnecting, [65], [(1, 1000)], 9000⟩ ∧
    (Send 5 600 ⟨"", "", "PRIVMSG", ["#chan", "hi"]⟩
        ⟨ConnState.kConnecting, [65], [(1, 1000)], 9000⟩).wrote = 0 ∧
    (Send 5 600 ⟨"", "", "PRIVMSG", ["#chan", "hi"]⟩
        ⟨ConnState.kConnecting, [65], [(1, 1000)], 9000⟩).conn.write_buffer = [65] ∧
    (Send 5 600 ⟨"", "", "PRIVMSG", ["#chan", "hi"]⟩
        ⟨ConnState.kConnecting, [65], [(1, 1000)], 9000⟩).conn.write_queue = [(1, 1000)] := by
  have h := irc_send_non_ready_drops 5 600 ⟨"", "", "PRIVMSG", ["#chan", "hi"]⟩
    ⟨ConnState.kConnecting, [65], [(1, 1000)], 9000⟩ (by decide)
  exact ⟨h.1, h.2.1, h.2.2.1, h.2.2.2⟩

end Bracket

namespace Bracket

/-! ## irc/connection.cc: Connection::ConnectionLost -/

/-- Embeds `Connection::ChannelState`. -/
inductive ChannelState
  | kKnown | kJoining | kJoined
deriving DecidableEq, Repr

/-- The slice of `irc::Connection` touched by `ConnectionLost`: the
socket, write buffer and queue, the three per-connection timers plus the
reconnect timer, channel states, nick, and the server index. -/
structure ConnFull where
  state : ConnState
  socketPresent : Bool
  write_buffer : List Nat
  write_queue : List (Nat × Nat)
  write_credit_timer : Option Nat
  auto_join_timer : Option Nat
  nick_regain_timer : Option Nat
  reconnect_timer : Option Nat
  channels : List (String × ChannelState)
  nick : String
  current_server : Nat
  server_count : Nat
deriving DecidableEq, Repr

/-- Events delivered to `Connection::Reader` subscribers. -/
inductive ConnEvent
  | ChannelLeft (chan : String)
  | ConnectionLostEvt (server : Nat)
deriving DecidableEq, Repr

/-- Embeds `Connection::ConnectionLost`: releases the socket, clears the
write buffer and queue, cancels the write-credit, auto-join and
nick-regain timers, emits `ChannelLeft` for every joined channel and
resets every channel to `kKnown`, emits `ConnectionLost` only from the
`kReady` state, moves to `kDisconnected`, clears the nick, advances the
server index modulo the server count and arms the reconnect timer
(`tid` is the fresh timer id returned by `loop_->Delay`). -/
def ConnectionLost (tid : Nat) (c : ConnFull) : ConnFull × List ConnEvent :=
  let events :=
    (c.channels.filter (fun e => e.2 = ChannelState.kJoined)).map
      (fun e => ConnEvent.ChannelLeft e.1) ++
    (if c.state = ConnState.kReady then [ConnEvent.ConnectionLostEvt c.current_server] else [])
  (⟨ConnState.kDisconnected, false, [], [],
    none, none, none, some tid,
    c.channels.map (fun e => (e.1, ChannelState.kKnown)),
    "", (c.current_server + 1) % c.server_count, c.server_count⟩, events)

/-- Claim C4 (amended): on every unrecoverable error, in any connection
state, `ConnectionLost` releases the socket, clears the write buffer and
queue, cancels the write-credit, auto-join and nick-regain timers, emits
`ChannelLeft` exactly for the joined channels, resets every channel to
`kKnown`, advances the server index modulo the server count, arms the
reconnect timer — but notifies subscribers with `ConnectionLost` if and
only if the state was `kReady` (not in every state, as claimed). -/
theorem connection_lost_spec (tid : Nat) (c : ConnFull) :
    (ConnectionLost tid c).1.socketPresent = false ∧
    (ConnectionLost tid c).1.write_buffer = [] ∧
    (ConnectionLost tid c).1.write_queue = [] ∧
    (ConnectionLost tid c).1.write_credit_timer = none ∧
    (ConnectionLost tid c).1.auto_join_timer = none ∧
    (ConnectionLost tid c).1.nick_regain_timer = none ∧
    (ConnectionLost tid c).1.reconnect_timer = some tid ∧
    (ConnectionLost tid c).1.state = ConnState.kDisconnected ∧
    (ConnectionLost tid c).1.current_server = (c.current_server + 1) % c.server_count ∧
    (∀ e ∈ (ConnectionLost tid c).1.channels, e.2 = ChannelState.kKnown) ∧
    (∀ ch, ConnEvent.ChannelLeft ch ∈ (ConnectionLost tid c).2 ↔
      (ch, ChannelState.kJoined) ∈ c.channels) ∧
    (∀ s, ConnEvent.ConnectionLostEvt s ∈ (ConnectionLost tid c).2 ↔
      (c.state = ConnState.kReady ∧ s = c.current_server)) := by
  refine ⟨rfl, rfl, rfl, rfl, rfl, rfl, rfl, rfl, rfl, ?_, ?_, ?_⟩
  · intro e he
    simp only [ConnectionLost, List.mem_map] at he
    obtain ⟨a, _, ha⟩ := he
    rw [← ha]
  · intro ch
    simp only [ConnectionLost, List.mem_append, List.mem_map, List.mem_filter]
    constructor
    · intro hmem
      rcases hmem with ⟨a, ⟨hmem, hj⟩, heq⟩ | habs
      · cases heq
        have : a.2 = ChannelState.kJoined := by
          simpa using hj
        rcases a with ⟨a1, a2⟩
        simp at this ⊢
        simpa [this] using hmem
      · exfalso
        revert habs
        split <;> simp
    · intro hmem
      exact Or.inl ⟨(ch, ChannelState.kJoined), ⟨hmem, by simp⟩, rfl⟩
  · intro s
    simp only [ConnectionLost, List.mem_append, List.mem_map, List.mem_filter]
    constructor
    · intro hmem
      rcases hmem with ⟨a, _, heq⟩ | hif
      · cases heq
      · revert hif
        split
        · intro hmem2
          simp at hmem2
          constructor
          · assumption
          · omega
        · intro habs
          simp at habs
    · intro ⟨hready, hs⟩
      right
      rw [if_pos hready, hs]
      simp

/-- Claim C4 (counterexample): an unrecoverable error in the
`kConnecting` state, with one joined channel, produces only the
`ChannelLeft` notification — subscribers get no `ConnectionLost`,
contradicting the claim that it is delivered in any connection state. -/
theorem connection_lost_counterexample :
    (ConnectionLost 7 ⟨ConnState.kConnecting, true, [1, 2], [(2, 1000)],
        some 1, some 2, some 3, none, [("#a", ChannelState.kJoined)], "n", 0, 2⟩).2
      = [ConnEvent.ChannelLeft "#a"] ∧
    ConnEvent.ConnectionLostEvt 0 ∉
      (ConnectionLost 7 ⟨ConnState.kConnecting, true, [1, 2], [(2, 1000)],
        some 1, some 2, some 3, none, [("#a", ChannelState.kJoined)], "n", 0, 2⟩).2 := by
  refine ⟨?_, ?_⟩ <;> decide

end Bracket

namespace Bracket

/-! ## event/socket.cc: TlsSocket pending-operation bookkeeping

`Option` models the `CHECK`/`FATAL` assertions: `none` is an assertion
failure (process abort).  The SSL library result enters as `wantRead`,
`wantWrite` or success; watch toggles go to the underlying plain socket.
-/

/-- Embeds `TlsSocket::PendingOp`. -/
inductive PendingOp
  | kNone | kWantReadForRead | kWantWriteForRead | kWantReadForWrite | kWantWriteForWrite
deriving DecidableEq, Repr

/-- The `TlsSocket` fields driving the pending-operation logic. -/
structure TlsState where
  read_requested : Bool
  write_requested : Bool
  read_watched : Bool
  write_watched : Bool
  pending : PendingOp
deriving DecidableEq, Repr

/-- Result of `SSL_read`/`SSL_write` as seen by the wrapper. -/
inductive SslRet
  | ok (n : Nat) | wantRead | wantWrite
deriving DecidableEq, Repr

/-- Readiness event delivered to the upper watcher. -/
inductive SockDir
  | canRead | canWrite
deriving DecidableEq, Repr

/-- Embeds `TlsSocket::WatchRead` (with its `CHECK(read_watched_ != watch)`). -/
def WatchRead (watch : Bool) (s : TlsState) : Option TlsState :=
  if s.read_watched = watch then none
  else some { s with read_watched := watch }

/-- Embeds `TlsSocket::WatchWrite` (with its `CHECK(write_watched_ != watch)`). -/
def WatchWrite (watch : Bool) (s : TlsState) : Option TlsState :=
  if s.write_watched = watch then none
  else some { s with write_watched := watch }

/-- Embeds the state effects of `TlsSocket::Read`: the want-read /
want-write branches retarget the underlying watches and set the pending
tag; success clears it and re-syncs the watches to the requested
interest. -/
def tlsRead (ret : SslRet) (s : TlsState) : Option TlsState :=
  if s.pending = PendingOp.kWantReadForWrite ∨ s.pending = PendingOp.kWantWriteForWrite then
    none
  else
    match ret with
    | .wantRead => do
      let s ← if !s.read_watched then WatchRead true s else pure s
      let s ← if s.write_watched then WatchWrite false s else pure s
      pure { s with pending := PendingOp.kWantReadForRead }
    | .wantWrite => do
      let s ← if s.read_watched then WatchRead false s else pure s
      let s ← if !s.write_watched then WatchWrite true s else pure s
      pure { s with pending := PendingOp.kWantWriteForRead }
    | .ok _ => do
      let s := { s with pending := PendingOp.kNone }
      let s ← if s.read_watched ≠ s.read_requested then WatchRead s.read_requested s else pure s
      let s ← if s.write_watched ≠ s.write_requested then WatchWrite s.write_requested s
              else pure s
      pure s

/-- Embeds the state effects of `TlsSocket::Write`.  Note: the source's
`SSL_ERROR_WANT_WRITE` branch (socket.cc:648) assigns
`pending_ = kWantReadForWrite`, the same tag as the want-read branch;
this embedding reproduces that assignment faithfully. -/
def tlsWrite (ret : SslRet) (s : TlsState) : Option TlsState :=
  if s.pending = PendingOp.kWantReadForRead ∨ s.pending = PendingOp.kWantWriteForRead then
    none
  else
    match ret with
    | .wantRead => do
      let s ← if !s.read_watched then WatchRead true s else pure s
      let s ← if s.write_watched then WatchWrite false s else pure s
      pure { s with pending := PendingOp.kWantReadForWrite }
    | .wantWrite => do
      let s ← if s.read_watched then WatchRead false s else pure s
      let s ← if !s.write_watched then WatchWrite true s else pure s
      pure { s with pending := PendingOp.kWantReadForWrite }
    | .ok _ => do
      let s := { s with pending := PendingOp.kNone }
      let s ← if s.read_watched ≠ s.read_requested then WatchRead s.read_requested s else pure s
      let s ← if s.write_watched ≠ s.write_requested then WatchWrite s.write_requested s
              else pure s
      pure s

/-- Embeds `TlsSocket::CanRead`: the readiness event delivered upward
when the underlying socket becomes readable (`none` = `CHECK`/`FATAL`). -/
def tlsCanRead (s : TlsState) : Option SockDir :=
  if s.pending = PendingOp.kWantWriteForRead ∨ s.pending = PendingOp.kWantWriteForWrite then
    none
  else if s.pending = PendingOp.kNone ∧ s.read_requested = false then none
  else
    match s.pending with
    | .kNone => some SockDir.canRead
    | .kWantReadForRead => some SockDir.canRead
    | .kWantReadForWrite => some SockDir.canWrite
    | _ => none

/-- Embeds `TlsSocket::CanWrite`: the readiness event delivered upward
when the underlying socket becomes writable (`none` = `CHECK`/`FATAL`). -/
def tlsCanWrite (s : TlsState) : Option SockDir :=
  if s.pending = PendingOp.kWantReadForRead ∨ s.pending = PendingOp.kWantReadForWrite then
    none
  else if s.pending = PendingOp.kNone ∧ s.write_requested = false then none
  else
    match s.pending with
    | .kNone => some SockDir.canWrite
    | .kWantWriteForWrite => some SockDir.canWrite
    | .kWantWriteForRead => some SockDir.canRead
    | _ => none

end Bracket

namespace Bracket

/-- Claim C3 (evaluation): three of the four pending cases behave as the
claim states — a read pending on read delivers `CanRead` when the socket
becomes readable, a read pending on write delivers `CanRead` when the
socket becomes writable, and a write pending on read delivers `CanWrite`
when the socket becomes readable.  But a write left pending on write
(the `SSL_ERROR_WANT_WRITE` branch of `TlsSocket::Write`) tags the
operation `kWantReadForWrite` instead of `kWantWriteForWrite`
(socket.cc:648; the latter tag is never assigned anywhere), so when the
underlying socket becomes writable, `TlsSocket::CanWrite` aborts on its
`CHECK(pending_ != kWantReadForWrite)` instead of delivering the
`CanWrite` event the claim requires. -/
theorem tls_pending_swap_eval :
    (tlsRead SslRet.wantRead ⟨true, false, true, false, PendingOp.kNone⟩
        = some ⟨true, false, true, false, PendingOp.kWantReadForRead⟩ ∧
      tlsCanRead ⟨true, false, true, false, PendingOp.kWantReadForRead⟩
        = some SockDir.canRead) ∧
    (tlsRead SslRet.wantWrite ⟨true, false, true, false, PendingOp.kNone⟩
        = some ⟨true, false, false, true, PendingOp.kWantWriteForRead⟩ ∧
      tlsCanWrite ⟨true, false, false, true, PendingOp.kWantWriteForRead⟩
        = some SockDir.canRead) ∧
    (tlsWrite SslRet.wantRead ⟨false, true, false, true, PendingOp.kNone⟩
        = some ⟨false, true, true, false, PendingOp.kWantReadForWrite⟩ ∧
      tlsCanRead ⟨false, true, true, false, PendingOp.kWantReadForWrite⟩
        = some SockDir.canWrite) ∧
    (tlsWrite SslRet.wantWrite ⟨false, true, false, true, PendingOp.kNone⟩
        = some ⟨false, true, false, true, PendingOp.kWantReadForWrite⟩ ∧
      tlsCanWrite ⟨false, true, false, true, PendingOp.kWantReadForWrite⟩
        = none) := by
  refine ⟨⟨?_, ?_⟩, ⟨?_, ?_⟩, ⟨?_, ?_⟩, ⟨?_, ?_⟩⟩ <;> decide

end Bracket

namespace Bracket

/-! ## event/socket.cc: outgoing BasicSocket state machine

`Start` either launches name resolution (Internet) or connects directly.
The observable inputs are the resolution outcome — timeout, failure, or
an address list — and whether each address's connect attempt succeeds
(`Connect`/`ConnectDone`/`ConnectNext` collapse `socket()`/`fcntl`
failure, immediate connect failure, `getsockopt` error and connect
timeout into one per-address failure).  After `kOpen`, readiness
callbacks deliver `CanRead`/`CanWrite` only.
-/

/-- Outcome of the resolution phase of an outgoing Internet socket. -/
inductive ResolveOutcome
  | timeout
  | failed
  | resolved (addrs : List Bool)
deriving DecidableEq, Repr

/-- Externally observable steps of the socket life cycle.  `tried i`
records the connect attempt on address `i` of the resolved list. -/
inductive SockStep
  | tried (i : Nat) | opened | failedEvt | canRead | canWrite
deriving DecidableEq, Repr

/-- Whether a step is one of the two terminal watcher events
(`ConnectionOpen` / `ConnectionFailed`). -/
def isTerminal : SockStep → Bool
  | .opened => true
  | .failedEvt => true
  | _ => false

/-- Embeds the `Connect`/`ConnectDone`/`ConnectNext` loop: try each
address in list order; success opens the socket, failure advances to the
next address, and exhaustion fails the socket.  (The empty case cannot
arise: `Connect` checks `connect_addr_` and `Resolved` fails the socket
before connecting when the address list is empty.) -/
def tryAddrs (i : Nat) : List Bool → List SockStep
  | [] => []
  | ok :: rest =>
    SockStep.tried i ::
      (if ok then [SockStep.opened]
       else if rest.isEmpty then [SockStep.failedEvt]
       else tryAddrs (i + 1) rest)

/-- Embeds the connect phase after `Start`: resolution timeout and
resolution failure fail the socket immediately (`ResolveTimeout`,
`Resolved` with no addresses); a resolved list enters the connect loop. -/
def runConnect : ResolveOutcome → List SockStep
  | .timeout => [SockStep.failedEvt]
  | .failed => [SockStep.failedEvt]
  | .resolved addrs => tryAddrs 0 addrs

/-- The whole observable life of the socket: the connect phase, then —
only if the socket opened — the readiness callbacks of the `kOpen` state
(`BasicSocket::CanRead`/`CanWrite` deliver only `CanRead`/`CanWrite`
upward). -/
def runLife (ro : ResolveOutcome) (readiness : List Bool) : List SockStep :=
  runConnect ro ++
    (if SockStep.opened ∈ runConnect ro then
      readiness.map (fun r => if r then SockStep.canRead else SockStep.canWrite)
    else [])

lemma tryAddrs_countP (addrs : List Bool) : ∀ i : Nat, addrs ≠ [] →
    (tryAddrs i addrs).countP isTerminal = 1 := by
  induction addrs with
  | nil => intro i h; exact absurd rfl h
  | cons a rest ih =>
    intro i _
    rw [tryAddrs]
    rw [List.countP_cons]
    simp only [isTerminal]
    by_cases ha : a
    · rw [if_pos ha]
      rfl
    · rw [if_neg ha]
      cases rest with
      | nil => rfl
      | cons b t =>
        have : ((b :: t : List Bool).isEmpty) = false := rfl
        rw [this]
        simp only [Bool.false_eq_true, if_false]
        rw [ih (i + 1) (by simp)]

lemma readiness_countP (l : List Bool) :
    (l.map (fun r => if r then SockStep.canRead else SockStep.canWrite)).countP isTerminal
      = 0 := by
  induction l with
  | nil => rfl
  | cons b t ih => cases b <;> simp [List.countP_cons, isTerminal, ih]

lemma tryAddrs_failed (addrs : List Bool) : ∀ i : Nat,
    SockStep.failedEvt ∈ tryAddrs i addrs →
    tryAddrs i addrs = (List.range' i addrs.length).map SockStep.tried
      ++ [SockStep.failedEvt] := by
  induction addrs with
  | nil => intro i h; simp [tryAddrs] at h
  | cons a rest ih =>
    intro i hmem
    rw [tryAddrs] at hmem ⊢
    by_cases ha : a
    · rw [if_pos ha] at hmem
      simp at hmem
    · rw [if_neg ha] at hmem ⊢
      cases rest with
      | nil =>
        simp [List.range'_succ]
      | cons b t =>
        have hne : ((b :: t : List Bool).isEmpty) = false := rfl
        rw [hne] at hmem ⊢
        simp only [Bool.false_eq_true, if_false] at hmem ⊢
        have htail := ih (i + 1) (by
          rcases List.mem_cons.mp hmem with h | h
          · cases h
          · exact h)
        rw [htail, List.length_cons, List.range'_succ]
        simp [List.range'_succ]

/-- Claim C5: for every outgoing Internet socket, over the whole life of
the socket after `Start`, the watcher receives exactly one of
`ConnectionOpen` or `ConnectionFailed` — never both and never more —
and `ConnectionFailed` fires only after every resolved address has been
tried in list order. -/
theorem socket_connect_lifecycle (ro : ResolveOutcome) (readiness : List Bool)
    (hne : ∀ addrs, ro = ResolveOutcome.resolved addrs → addrs ≠ []) :
    (runLife ro readiness).countP isTerminal = 1 ∧
    (∀ addrs, ro = ResolveOutcome.resolved addrs →
      SockStep.failedEvt ∈ runLife ro readiness →
      runLife ro readiness
        = (List.range addrs.length).map SockStep.tried ++ [SockStep.failedEvt]) := by
  constructor
  · rw [runLife, List.countP_append]
    have hifzero :
        ((if SockStep.opened ∈ runConnect ro then
          readiness.map (fun r => if r then SockStep.canRead else SockStep.canWrite)
        else []).countP isTerminal) = 0 := by
      split
      · exact readiness_countP readiness
      · rfl
    rw [hifzero]
    cases ro with
    | timeout => rfl
    | failed => rfl
    | resolved addrs =>
      rw [Nat.add_zero]
      exact tryAddrs_countP addrs 0 (hne addrs rfl)
  · intro addrs hro hmem
    subst hro
    have hconn : SockStep.failedEvt ∈ runConnect (ResolveOutcome.resolved addrs) := by
      rw [runLife, List.mem_append] at hmem
      rcases hmem with h | h
      · exact h
      · exfalso
        revert h
        split
        · intro h
          rcases List.mem_map.mp h with ⟨r, _, hr⟩
          revert hr
          split <;> intro hr <;> cases hr
        · intro h
          cases h
    have heq := tryAddrs_failed addrs 0 hconn
    have hnoopen : SockStep.opened ∉ runConnect (ResolveOutcome.resolved addrs) := by
      show SockStep.opened ∉ tryAddrs 0 addrs
      rw [show tryAddrs 0 addrs = _ from heq]
      intro habs
      rw [List.mem_append] at habs
      rcases habs with h | h
      · rcases List.mem_map.mp h with ⟨r, _, hr⟩
        cases hr
      · simp at h
    rw [runLife, if_neg hnoopen, List.append_nil]
    show tryAddrs 0 addrs = _
    rw [show tryAddrs 0 addrs = _ from heq, List.range_eq_range']

/-- Witness for C5: the lifecycle theorem at a two-address socket whose
first address fails and second succeeds (then two readiness events), and
at a two-address socket where both fail: each sees exactly one terminal
event, and the all-fail case tries both addresses in order before
`ConnectionFailed`. -/
theorem socket_connect_lifecycle_witness :
    (runLife (ResolveOutcome.resolved [false, true]) [true, false]).countP isTerminal = 1 ∧
    (runLife (ResolveOutcome.resolved [false, false]) []).countP isTerminal = 1 ∧
    runLife (ResolveOutcome.resolved [false, false]) []
      = [SockStep.tried 0, SockStep.tried 1, SockStep.failedEvt] := by
  refine ⟨?_, ?_, ?_⟩
  · exact (socket_connect_lifecycle (ResolveOutcome.resolved [false, true]) [true, false]
      (by intro addrs h; cases h; simp)).1
  · exact (socket_connect_lifecycle (ResolveOutcome.resolved [false, false]) []
      (by intro addrs h; cases h; simp)).1
  · have h := (socket_connect_lifecycle (ResolveOutcome.resolved [false, false]) []
      (by intro addrs h; cases h; simp)).2 [false, false] rfl (by decide)
    rw [h]
    decide

end Bracket

namespace Bracket

/-! ## proto/util.h and brpc/brpc.cc: RPC framing -/

/-- Embeds `proto::kMaxVarintSize`. -/
def kMaxVarintSize : Nat := 10

/-- Embeds `proto::CheckVarint`: the number of bytes of the varint if a
terminator byte (high bit clear) occurs among the first
`min size kMaxVarintSize` bytes, else 0. -/
def CheckVarint (buffer : List Nat) (size : Nat) : Nat :=
  match (List.range (min size kMaxVarintSize)).find?
      (fun i => buffer.getD i 0 &&& 0x80 == 0) with
  | some i => i + 1
  | none => 0

/-- Embeds `proto::ReadKnownVarint`: assembles `size` 7-bit groups
little-endian (the accumulator is a C++ `uint64_t`, so each shifted
group is truncated to 64 bits). -/
def ReadKnownVarint (buffer : List Nat) (size : Nat) : Nat :=
  (List.range size).foldl
    (fun value i => value ||| (((buffer.getD i 0 &&& 0x7f) <<< (7 * i)) % 2 ^ 64)) 0

lemma CheckVarint_le (buffer : List Nat) (size : Nat) :
    CheckVarint buffer size ≤ min size kMaxVarintSize := by
  unfold CheckVarint
  split
  case h_1 i heq =>
    have hmem := List.mem_range.mp (List.mem_of_find?_eq_some heq)
    omega
  case h_2 => omega

/-- The `Ready`-state slice of an `RpcCall` during `CanRead`: the read
buffer and the optional pending message size. -/
structure RpcReadState where
  readBuffer : List Nat
  messageSize : Option Nat
deriving DecidableEq, Repr

/-- How the `Ready`-state read loop left the call. -/
inductive RpcOutcome
  | closed (err : String)
  | waiting (s : RpcReadState)
deriving DecidableEq, Repr

/-- Embeds the `while (state_ == State::kReady)` loop of
`RpcCall::CanRead`: alternately parse a header varint (closing the call
when more than `kMaxVarintSize` buffered bytes still show no terminator)
and decode a message body of the parsed size (closing the call on decode
failure without delivering the body).  Returns the delivered bodies in
order and the final outcome.  `decode` abstracts
`read_message_->MergeFromCodedStream && coded.ConsumedEntireMessage()`
under the pushed size limit. -/
def rpcReadLoop (decode : List Nat → Bool) (s : RpcReadState) :
    List (List Nat) × RpcOutcome :=
  match hms : s.messageSize with
  | none =>
    let header_size := CheckVarint s.readBuffer s.readBuffer.length
    if hz : header_size = 0 then
      if s.readBuffer.length > kMaxVarintSize then
        ([], RpcOutcome.closed "RpcCall: message header parse failed")
      else ([], RpcOutcome.waiting s)
    else
      rpcReadLoop decode
        ⟨s.readBuffer.drop header_size, some (ReadKnownVarint s.readBuffer header_size)⟩
  | some ms =>
    if s.readBuffer.length < ms then ([], RpcOutcome.waiting s)
    else
      let body := s.readBuffer.take ms
      if decode body then
        let r := rpcReadLoop decode ⟨s.readBuffer.drop ms, none⟩
        (body :: r.1, r.2)
      else ([], RpcOutcome.closed "RpcCall: protobuf parsing failed")
termination_by 2 * s.readBuffer.length + (if s.messageSize.isSome then 1 else 0)
decreasing_by
  · have hle := CheckVarint_le s.readBuffer s.readBuffer.length
    simp only [kMaxVarintSize] at hle
    simp only [hms, Option.isSome_none, Option.isSome_some, List.length_drop,
      Bool.false_eq_true, if_false, if_true]
    omega
  · simp only [hms, Option.isSome_none, Option.isSome_some, List.length_drop,
      Bool.false_eq_true, if_false, if_true]
    omega

/-- Claim C6: in the `Ready` state, (a) if the buffered input exceeds 10
bytes with no varint terminator among the first 10, the call is closed
with an error and nothing is delivered; (b) if decoding a
length-delimited body of the pending size fails, the call is closed with
an error and the partial message is not delivered to the endpoint. -/
theorem rpc_framing_errors (decode : List Nat → Bool) (buf : List Nat) (ms : Nat)
    (hlong : buf.length > kMaxVarintSize) (hterm : CheckVarint buf buf.length = 0)
    (hms : ms ≤ buf.length) (hdec : decode (buf.take ms) = false) :
    rpcReadLoop decode ⟨buf, none⟩
      = ([], RpcOutcome.closed "RpcCall: message header parse failed") ∧
    rpcReadLoop decode ⟨buf, some ms⟩
      = ([], RpcOutcome.closed "RpcCall: protobuf parsing failed") := by
  constructor
  · rw [rpcReadLoop]
    simp [hterm, hlong]
  · rw [rpcReadLoop]
    have hnl : ¬ buf.length < ms := Nat.not_lt.mpr hms
    simp [hnl, hdec]

/-- Witness for C6: eleven continuation bytes (0x80) close the call with
the header error, and a 5-byte body rejected by the decoder closes the
call with the parse error without delivering it. -/
theorem rpc_framing_errors_witness :
    rpcReadLoop (fun _ => false) ⟨List.replicate 11 0x80, none⟩
      = ([], RpcOutcome.closed "RpcCall: message header parse failed") ∧
    rpcReadLoop (fun _ => false) ⟨List.replicate 11 0x80, some 5⟩
      = ([], RpcOutcome.closed "RpcCall: protobuf parsing failed") :=
  rpc_framing_errors (fun _ => false) (List.replicate 11 0x80) 5
    (by decide) (by decide) (by decide) (by decide)

end Bracket

namespace Bracket

/-! ## brpc/brpc.cc: RpcCall::Close -/

/-- Embeds `RpcCall::State`. -/
inductive RpcState
  | kConnecting | kDispatching | kReady | kFlushing | kClosed
deriving DecidableEq, Repr

/-- The slice of an `RpcCall` touched by `Close`, together with the
loop's finisher queue (`loop_->AddFinishable` appends the call). -/
structure RpcCall where
  state : RpcState
  read_buffer : List Nat
  write_buffer : List Nat
  close_error : Option String
  socketPresent : Bool
  wantRead : Bool
  finishers : List Nat
deriving DecidableEq, Repr

/-- Embeds `RpcCall::Close(error, flush)` for the call with id `selfId`:
an already-closed call returns immediately; otherwise an error forces
no-flush and is recorded, the read buffer is cleared, and either the
call enters `kFlushing` (stop reading, let output drain) or it closes
now — dropping the write buffer, releasing the socket and enqueueing
itself on the loop's finisher queue. -/
def RpcClose (selfId : Nat) (error : Option String) (flush : Bool) (c : RpcCall) : RpcCall :=
  if c.state = RpcState.kClosed then c
  else
    let close_error : Option String := match error with
      | some e => some e
      | none => c.close_error
    let flush : Bool := match error with
      | some _ => false
      | none => flush
    let c2 : RpcCall := { c with close_error := close_error, read_buffer := [] }
    if c2.state ≠ RpcState.kFlushing ∧ flush ∧ ¬ c2.write_buffer.isEmpty then
      { c2 with state := RpcState.kFlushing, wantRead := false }
    else
      { c2 with write_buffer := [], state := RpcState.kClosed, socketPresent := false,
                finishers := c2.finishers ++ [selfId] }

/-- Claim C10: `RpcCall::Close` is idempotent — for every call already in
the `kClosed` state, invoking `Close` again with any error and flush
arguments returns immediately, leaving the call state, the read and
write buffers, the stored close error, and the loop's finisher queue
unchanged (so the endpoint's close callback is scheduled at most once
per call). -/
theorem rpc_close_idempotent (selfId : Nat) (error : Option String) (flush : Bool)
    (c : RpcCall) (h : c.state = RpcState.kClosed) :
    RpcClose selfId error flush c = c ∧
    (RpcClose selfId error flush c).state = c.state ∧
    (RpcClose selfId error flush c).read_buffer = c.read_buffer ∧
    (RpcClose selfId error flush c).write_buffer = c.write_buffer ∧
    (RpcClose selfId error flush c).close_error = c.close_error ∧
    (RpcClose selfId error flush c).finishers = c.finishers := by
  rw [RpcClose.eq_def, if_pos h]
  exact ⟨rfl, rfl, rfl, rfl, rfl, rfl⟩

/-- Witness for C10: a second `Close`, with a fresh error and
`flush = true`, on a call that already closed with an earlier error. -/
theorem rpc_close_idempotent_witness :
    RpcClose 3 (some "later error") true
        ⟨RpcState.kClosed, [], [], some "first error", false, false, [3]⟩
      = ⟨RpcState.kClosed, [], [], some "first error", false, false, [3]⟩ ∧
    (RpcClose 3 (some "later error") true
        ⟨RpcState.kClosed, [], [], some "first error", false, false, [3]⟩).finishers
      = [3] := by
  have h := rpc_close_idempotent 3 (some "later error") true
    ⟨RpcState.kClosed, [], [], some "first error", false, false, [3]⟩ rfl
  exact ⟨h.1, h.2.2.2.2.2⟩

/-! ## base/timer_impl.h: Timer::AddPeriodic -/

/-- The timer bookkeeping of `base::Timer`: the `periodic_` map from
rate to request id, the expiry `queue_` of `(target, request id)`, the
`requests_` owner set mapping request id to its handler datum, and the
next fresh id. -/
structure TimerState where
  periodic : List (Nat × Nat)
  queue : List (Nat × Nat)
  requests : List (Nat × Nat)
  nextId : Nat
deriving DecidableEq, Repr

/-- Embeds `Timer::AddPeriodic(rate, handler)`: when `periodic_` already
holds a request for `rate`, the existing request and its stored handler
datum are returned and nothing changes; otherwise a fresh request with
expiry `NextPeriod(rate)` (passed in as `target`) is created, inserted
into `requests_`, `periodic_` and `queue_`, the timer is re-armed, and
the new request with the new handler is returned. -/
def AddPeriodic (target rate handler : Nat) (t : TimerState) : TimerState × Nat × Nat :=
  match t.periodic.find? (fun e => e.1 == rate) with
  | some e =>
    (t, e.2, (((t.requests.find? (fun r => r.1 == e.2)).map (fun r => r.2)).getD 0))
  | none =>
    ({ periodic := t.periodic ++ [(rate, t.nextId)],
       queue := t.queue ++ [(target, t.nextId)],
       requests := t.requests ++ [(t.nextId, handler)],
       nextId := t.nextId + 1 }, t.nextId, handler)

/-- Claim C9: if `AddPeriodic` is called when a periodic timer with the
same rate already exists, the existing timer's handle and stored handler
datum are returned and the timer state is unchanged — in particular the
newly supplied handler is not registered; otherwise a new periodic
request is created with expiry `NextPeriod(rate)`, registered in the
request set, the rate map and the expiry queue, and returned with the
new handler. -/
theorem timer_add_periodic_unique (target rate handler : Nat) (t : TimerState) :
    (∀ e, t.periodic.find? (fun x => x.1 == rate) = some e →
      (AddPeriodic target rate handler t).1 = t ∧
      (AddPeriodic target rate handler t).2.1 = e.2 ∧
      (AddPeriodic target rate handler t).1.requests = t.requests) ∧
    (t.periodic.find? (fun x => x.1 == rate) = none →
      (AddPeriodic target rate handler t).1.periodic = t.periodic ++ [(rate, t.nextId)] ∧
      (AddPeriodic target rate handler t).1.queue = t.queue ++ [(target, t.nextId)] ∧
      (AddPeriodic target rate handler t).1.requests = t.requests ++ [(t.nextId, handler)] ∧
      (AddPeriodic target rate handler t).2 = (t.nextId, handler)) := by
  constructor
  · intro e he
    rw [AddPeriodic, he]
    exact ⟨rfl, rfl, rfl⟩
  · intro hn
    rw [AddPeriodic, hn]
    exact ⟨rfl, rfl, rfl, rfl⟩

/-- Witness for C9: adding a periodic tick at rate 60 when one exists
returns the old request untouched; adding one at rate 30 registers a new
request. -/
theorem timer_add_periodic_unique_witness :
    ((AddPeriodic 100 60 9 ⟨[(60, 1)], [(40, 1)], [(1, 5)], 2⟩).1
        = ⟨[(60, 1)], [(40, 1)], [(1, 5)], 2⟩ ∧
      (AddPeriodic 100 60 9 ⟨[(60, 1)], [(40, 1)], [(1, 5)], 2⟩).2.1 = 1 ∧
      (AddPeriodic 100 60 9 ⟨[(60, 1)], [(40, 1)], [(1, 5)], 2⟩).1.requests = [(1, 5)]) ∧
    ((AddPeriodic 100 30 9 ⟨[(60, 1)], [(40, 1)], [(1, 5)], 2⟩).1.periodic
        = [(60, 1)] ++ [(30, 2)] ∧
      (AddPeriodic 100 30 9 ⟨[(60, 1)], [(40, 1)], [(1, 5)], 2⟩).1.queue
        = [(40, 1)] ++ [(100, 2)] ∧
      (AddPeriodic 100 30 9 ⟨[(60, 1)], [(40, 1)], [(1, 5)], 2⟩).1.requests
        = [(1, 5)] ++ [(2, 9)] ∧
      (AddPeriodic 100 30 9 ⟨[(60, 1)], [(40, 1)], [(1, 5)], 2⟩).2 = (2, 9)) := by
  constructor
  · have h := (timer_add_periodic_unique 100 60 9 ⟨[(60, 1)], [(40, 1)], [(1, 5)], 2⟩).1
      (60, 1) (by decide)
    exact ⟨h.1, h.2.1, h.2.2⟩
  · have h := (timer_add_periodic_unique 100 30 9 ⟨[(60, 1)], [(40, 1)], [(1, 5)], 2⟩).2
      (by decide)
    exact h

end Bracket
